import Mathlib

/-
Verification of the JSON reader pipeline for sound-synthesis configuration.

The development embeds the core of json_reader.py (class JSONReader) as pure
Lean functions over a JSON value type.  Python dictionaries are modelled as
ordered association lists (Python 3.7+ dicts preserve insertion order), Python
floats as rationals, and raisable operations return Except PyErr.  The helper
functions pyContains, pyIndex, pyGet, pyItems, pyIter and pyLower mirror the
semantics of the Python expressions (key in value), value[key], value.get(key,
default), value.items(), iteration, and value.lower() on arbitrary JSON data,
including the TypeError / AttributeError raised on ill-typed receivers.
-/

namespace JsonReader

/-- JSON-like values as processed by the Python program: null, booleans,
numbers, strings, sequences and mappings (ordered, as Python dicts are). -/
inductive JVal where
  | null
  | boolv (b : Bool)
  | num (q : ℚ)
  | str (s : String)
  | arr (xs : List JVal)
  | obj (fs : List (String × JVal))

/-- Python exception kinds that the embedded code can raise. -/
inductive PyErr where
  | typeError
  | attributeError
  | keyError

/-- Lower-case an ASCII letter, mirroring str.lower on the characters the
program handles. -/
def charLower (c : Char) : Char :=
  if 'A' ≤ c ∧ c ≤ 'Z' then Char.ofNat (c.toNat + 32) else c

/-- Embedding of Python str.lower(). -/
def strLower (s : String) : String := ⟨s.data.map charLower⟩

/-- Embedding of str.replace(' ', '_') (the pattern is a single character, so
replacing each space character is exact). -/
def strUnderscore (s : String) : String :=
  ⟨s.data.map (fun c => if c = ' ' then '_' else c)⟩

/-- Key normalization from the source: name.lower().replace('_', '_').replace(' ', '_').
The replace of underscore by underscore is the identity. -/
def normalizeKey (s : String) : String := strUnderscore (strLower s)

/-- Whitespace characters stripped by Python str.strip(). -/
def isSpaceChar (c : Char) : Bool :=
  c = ' ' || c = '\t' || c = '\n' || c = '\r' || c = '\x0b' || c = '\x0c'

/-- Whether value.strip() is falsy, i.e. the string is empty or all whitespace. -/
def strTrimEmpty (s : String) : Bool := s.data.all isSpaceChar

/-- Whether the pattern list is an initial segment of the other list. -/
def leadingMatch : List Char → List Char → Bool
  | [], _ => true
  | _ :: _, [] => false
  | a :: as, b :: bs => a = b && leadingMatch as bs

/-- Whether pat occurs as a contiguous substring of hay (Python: pat in hay). -/
def hasSubAux (pat : List Char) : List Char → Bool
  | [] => leadingMatch pat []
  | c :: rest => leadingMatch pat (c :: rest) || hasSubAux pat rest

/-- Embedding of Python substring membership: pat in s. -/
def hasSub (s pat : String) : Bool := hasSubAux pat.data s.data

/-- Embedding of str.split(', ') used on the emotion strings: split on the
exact two-character separator, left to right, non-overlapping. -/
def splitCSAux : List Char → List Char → List String
  | [], acc => [⟨acc.reverse⟩]
  | ',' :: ' ' :: rest, acc => (⟨acc.reverse⟩ : String) :: splitCSAux rest []
  | c :: rest, acc => splitCSAux rest (c :: acc)

/-- Embedding of s.split(', '). -/
def splitCS (s : String) : List String := splitCSAux s.data []

/-- Python truthiness of a JSON value. -/
def pyTruthy : JVal → Bool
  | .null => false
  | .boolv b => b
  | .num q => q != 0
  | .str s => !s.isEmpty
  | .arr xs => !xs.isEmpty
  | .obj fs => !fs.isEmpty

/-- Whether a value is a mapping (Python isinstance(v, dict)). -/
def isObjJ : JVal → Bool
  | .obj _ => true
  | _ => false

/-- Whether a value is None. -/
def isNullJ : JVal → Bool
  | .null => true
  | _ => false

/-- Whether a value is a non-empty mapping (isinstance(v, dict) and v). -/
def isObjNE : JVal → Bool
  | .obj fs => !fs.isEmpty
  | _ => false

/-- Equality of a JSON value with a string literal, as Python == compares a
value with a str (non-strings are never equal to a string). -/
def jeqStr (v : JVal) (s : String) : Bool :=
  match v with
  | .str t => t == s
  | _ => false

/-- First value stored under a key in an association list. -/
def findA {α : Type} (k : String) (fs : List (String × α)) : Option α :=
  (fs.find? (fun p => p.1 == k)).map (fun p => p.2)

/-- Embedding of the Python statement d[k] = v on a dict represented as an
ordered association list: replace in place if the key exists, else append. -/
def dictSet {α : Type} (fs : List (String × α)) (k : String) (v : α) :
    List (String × α) :=
  if fs.any (fun p => p.1 == k) then
    fs.map (fun p => if p.1 == k then (k, v) else p)
  else fs ++ [(k, v)]

/-- Embedding of base.update(upd) on dicts. -/
def dictUpdate {α : Type} (base upd : List (String × α)) : List (String × α) :=
  upd.foldl (fun b p => dictSet b p.1 p.2) base

/-- Embedding of the Python membership test key in v: key lookup on dicts,
element equality on lists, substring test on strings, TypeError otherwise. -/
def pyContains (v : JVal) (key : String) : Except PyErr Bool :=
  match v with
  | .obj fs => .ok (fs.any (fun p => p.1 == key))
  | .arr xs => .ok (xs.any (fun x => jeqStr x key))
  | .str s => .ok (hasSub s key)
  | _ => .error .typeError

/-- Embedding of the Python subscript v[key] with a string key: only dicts
support it; a missing key is a KeyError, any other receiver a TypeError. -/
def pyIndex (v : JVal) (key : String) : Except PyErr JVal :=
  match v with
  | .obj fs =>
      match findA key fs with
      | some x => .ok x
      | none => .error .keyError
  | _ => .error .typeError

/-- Embedding of v.get(key, default): only dicts have the attribute. -/
def pyGet (v : JVal) (key : String) (dflt : JVal) : Except PyErr JVal :=
  match v with
  | .obj fs => .ok ((findA key fs).getD dflt)
  | _ => .error .attributeError

/-- Embedding of v.items(): only dicts have the attribute. -/
def pyItems (v : JVal) : Except PyErr (List (String × JVal)) :=
  match v with
  | .obj fs => .ok fs
  | _ => .error .attributeError

/-- Embedding of Python iteration over v: lists yield elements, strings yield
one-character strings, dicts yield their keys, others raise TypeError. -/
def pyIter (v : JVal) : Except PyErr (List JVal) :=
  match v with
  | .arr xs => .ok xs
  | .str s => .ok (s.data.map (fun c => .str c.toString))
  | .obj fs => .ok (fs.map (fun p => .str p.1))
  | _ => .error .typeError

/-- Embedding of v.lower(): only strings have the attribute. -/
def pyLower (v : JVal) : Except PyErr String :=
  match v with
  | .str s => .ok (strLower s)
  | _ => .error .attributeError

/-- Embedding of score += w where w came from JSON: Python adds floats and
bools to a float and raises TypeError on anything else. -/
def addNum (q : ℚ) (w : JVal) : Except PyErr ℚ :=
  match w with
  | .num x => .ok (q + x)
  | .boolv b => .ok (q + (if b then 1 else 0))
  | _ => .error .typeError

mutual

/-- Treatment of a single dict value by clean_empty_fields (json_reader.py
lines 69-96): none means the key is dropped, some gives the cleaned value. -/
def cleanValOpt : JVal → Option JVal
  | .null => none
  | .boolv b => some (.boolv b)
  | .num q => some (.num q)
  | .str s => if strTrimEmpty s then none else some (.str s)
  | .arr xs =>
      if xs.isEmpty then none
      else
        let c := cleanElems xs
        if c.isEmpty then none else some (.arr c)
  | .obj fs =>
      let c := cleanFields fs
      if c.isEmpty then none else some (.obj c)
termination_by structural v => v

/-- The loop of clean_empty_fields over the items of a dict. -/
def cleanFields : List (String × JVal) → List (String × JVal)
  | [] => []
  | (k, v) :: rest =>
      match cleanValOpt v with
      | some w => (k, w) :: cleanFields rest
      | none => cleanFields rest
termination_by structural fs => fs

/-- The inner loop of clean_empty_fields over the items of a list value
(json_reader.py lines 80-87): dict elements are cleaned and kept when
non-empty, None elements are dropped, all other elements are kept as they
are. -/
def cleanElems : List JVal → List JVal
  | [] => []
  | v :: rest =>
      match v with
      | .obj fs =>
          let c := cleanFields fs
          if c.isEmpty then cleanElems rest else .obj c :: cleanElems rest
      | .null => cleanElems rest
      | x => x :: cleanElems rest
termination_by structural xs => xs

end

/-- Embedding of clean_empty_fields: non-dict input is returned unchanged. -/
def clean_empty_fields : JVal → JVal
  | .obj fs => .obj (cleanFields fs)
  | v => v

/-- Embedding of the repeated per-section loop of the extractors:
for param in allow: if param in section: out[param] = section[param].
The keys written are distinct literals, so the dict is the ordered list of
selected pairs. -/
def selectFields (v : JVal) : List String → Except PyErr (List (String × JVal))
  | [] => .ok []
  | p :: rest => do
      let c ← pyContains v p
      if c then
        let x ← pyIndex v p
        let tail ← selectFields v rest
        .ok ((p, x) :: tail)
      else
        selectFields v rest

/-- Embedding of the section pattern of the extractors: if srcKey in record,
select the allow-listed fields of record[srcKey] and keep the section only
when the selection is non-empty. -/
def sectionInto (record : JVal) (srcKey : String) (allow : List String) :
    Except PyErr (Option (List (String × JVal))) := do
  let c ← pyContains record srcKey
  if c then
    let sec ← pyIndex record srcKey
    let cfg ← selectFields sec allow
    if cfg.isEmpty then .ok none else .ok (some cfg)
  else .ok none

/-- Embedding of the attack_noise block (json_reader.py lines 165-173): the
section is gated on the truthiness of attack_noise.get('enabled') and only
the three allow-listed parameters are copied; the flag itself is not. -/
def attackNoiseSection (record : JVal) :
    Except PyErr (Option (List (String × JVal))) := do
  let c ← pyContains record "attack_noise"
  if c then
    let an ← pyIndex record "attack_noise"
    let en ← pyGet an "enabled" .null
    if pyTruthy en then
      let cfg ← selectFields an ["intensity", "burst_length", "noise_type"]
      if cfg.isEmpty then .ok none else .ok (some cfg)
    else .ok none
  else .ok none

/-- Embedding of the effects block (json_reader.py lines 209-215 and 296-302):
if fx is present and truthy, keep the elements that are non-empty dicts. -/
def fxSection (record : JVal) : Except PyErr (Option (List JVal)) := do
  let c ← pyContains record "fx"
  if c then
    let v ← pyIndex record "fx"
    if pyTruthy v then
      let items ← pyIter v
      let effects := items.filter isObjNE
      if effects.isEmpty then .ok none else .ok (some effects)
    else .ok none
  else .ok none

/-- An optional object-valued entry of the per-record config dict. -/
def optField (k : String) : Option (List (String × JVal)) → List (String × JVal)
  | some cfg => [(k, .obj cfg)]
  | none => []

/-- An optional list-valued entry of the per-record config dict. -/
def optFieldArr (k : String) : Option (List JVal) → List (String × JVal)
  | some es => [(k, .arr es)]
  | none => []

/-- Embedding of the per-record body of extract_guitar_instruments
(json_reader.py lines 119-235), producing the config dict in the insertion
order of the source: adsr, guitarParams (strings, harmonics, filter,
attack_noise, body_resonance, pick, vibrato), effects, soundCharacteristics,
topologicalMetadata. -/
def buildInstrumentConfig (record : JVal) :
    Except PyErr (List (String × JVal)) := do
  let adsr ← sectionInto record "envelope"
    ["type", "attack", "hold", "decay", "sustain", "release", "curve"]
  let strings ← sectionInto record "strings"
    ["material", "num_strings", "tuning", "gauge", "detune_range", "tension"]
  let harmonics ← sectionInto record "harmonics"
    ["vibe_set", "decay_rate", "sympathetic_resonance"]
  let filt ← sectionInto record "filter"
    ["type", "cutoff", "resonance", "envelope_amount", "slope"]
  let an ← attackNoiseSection record
  let bodyRes ← sectionInto record "body_resonance" ["ir_file", "mix"]
  let pick ← sectionInto record "pick"
    ["stiffness", "noiseProbability", "noiseIntensity", "position"]
  let vib ← sectionInto record "vibrato"
    ["freq_range", "vibrato_hz", "depth_cents"]
  let gp := optField "strings" strings ++ optField "harmonics" harmonics
      ++ optField "filter" filt ++ optField "attack_noise" an
      ++ optField "body_resonance" bodyRes ++ optField "pick" pick
      ++ optField "vibrato" vib
  let fx ← fxSection record
  let sc ← sectionInto record "sound_characteristics"
    ["timbral", "material", "emotional", "dynamic"]
  let topo ← sectionInto record "topological_metadata"
    ["damping", "spectral_complexity", "manifold_position"]
  .ok (optField "adsr" adsr
      ++ (if gp.isEmpty then [] else [("guitarParams", .obj gp)])
      ++ optFieldArr "effects" fx
      ++ optField "soundCharacteristics" sc
      ++ optField "topologicalMetadata" topo)

/-- Embedding of extract_guitar_instruments (json_reader.py lines 100-241):
walk guitar_types -> type -> groups -> record, build each record config, and
store non-empty configs under the normalized record name. -/
def extract_guitar_instruments (guitar_data : JVal) :
    Except PyErr (List (String × JVal)) := do
  let has ← pyContains guitar_data "guitar_types"
  if !has then .ok [] else do
    let gt ← pyIndex guitar_data "guitar_types"
    let typeItems ← pyItems gt
    typeItems.foldlM (fun acc td => do
        let hasG ← pyContains td.2 "groups"
        if !hasG then .ok acc else do
          let groups ← pyIndex td.2 "groups"
          let recs ← pyItems groups
          recs.foldlM (fun acc2 r => do
              let cfg ← buildInstrumentConfig r.2
              if cfg.isEmpty then .ok acc2
              else .ok (dictSet acc2 (normalizeKey r.1) (.obj cfg))) acc) []

/-- Embedding of the synthesis_type block of extract_group_effects
(json_reader.py lines 261-262): the field is copied directly when present. -/
def synthesisTypeField (record : JVal) :
    Except PyErr (List (String × JVal)) := do
  let has ← pyContains record "synthesis_type"
  if has then
    let v ← pyIndex record "synthesis_type"
    .ok [("synthesis_type", v)]
  else .ok []

/-- Embedding of the per-record body of extract_group_effects (json_reader.py
lines 258-322), in source insertion order: synthesis_type, oscillator,
envelope, filter, fx, sound_characteristics, topological_metadata. -/
def buildGroupConfig (record : JVal) : Except PyErr (List (String × JVal)) := do
  let st ← synthesisTypeField record
  let osc ← sectionInto record "oscillator"
    ["types", "mix_ratios", "detune", "modulation_index", "carrier_ratio",
     "harmonics", "morph_rate", "table_index", "pluck_position",
     "grain_density", "grain_size"]
  let env ← sectionInto record "envelope"
    ["type", "attack", "hold", "decay", "sustain", "release", "delay", "curve"]
  let filt ← sectionInto record "filter"
    ["type", "cutoff", "resonance", "envelope_amount", "slope"]
  let fx ← fxSection record
  let sc ← sectionInto record "sound_characteristics"
    ["timbral", "material", "emotional", "dynamic"]
  let topo ← sectionInto record "topological_metadata"
    ["damping", "spectral_complexity", "manifold_position"]
  .ok (st ++ optField "oscillator" osc ++ optField "envelope" env
      ++ optField "filter" filt ++ optFieldArr "fx" fx
      ++ optField "sound_characteristics" sc
      ++ optField "topological_metadata" topo)

/-- Embedding of extract_group_effects (json_reader.py lines 243-328). -/
def extract_group_effects (group_data : JVal) :
    Except PyErr (List (String × JVal)) := do
  let has ← pyContains group_data "groups"
  if !has then .ok [] else do
    let groups ← pyIndex group_data "groups"
    let recs ← pyItems groups
    recs.foldlM (fun acc r => do
        let cfg ← buildGroupConfig r.2
        if cfg.isEmpty then .ok acc
        else .ok (dictSet acc (normalizeKey r.1) (.obj cfg))) []

/-- The structure fields copied by apply_structure_mappings, in source order. -/
def structFieldNames : List String :=
  ["sectionName", "attackMul", "decayMul", "sustainMul", "releaseMul",
   "useDynamicGate", "gateThreshold", "gateDecaySec"]

/-- Embedding of the structure_map construction of apply_structure_mappings
(json_reader.py lines 339-352): for each catalog section carrying a group
name, map the normalized group name to the eight structure fields (nulls
included); a later section with the same normalized group overwrites an
earlier one, as the Python dict assignment does. -/
def buildStructureMap (sections : List JVal) :
    Except PyErr (List (String × List (String × JVal))) :=
  sections.foldlM (fun acc sec => do
      let c ← pyContains sec "group"
      if c then
        let g ← pyIndex sec "group"
        let gl ← pyLower g
        let key := strUnderscore gl
        let fields ← structFieldNames.mapM (fun fn => do
            let v ← pyGet sec fn .null
            pure (fn, v))
        .ok (dictSet acc key fields)
      else .ok acc) []

/-- The application step of apply_structure_mappings on a single config entry
(json_reader.py lines 355-365): attach the non-null subset of the matched
structure fields under the key structure, when that subset is non-empty. -/
def applyOne (smap : List (String × List (String × JVal)))
    (p : String × JVal) : Except PyErr (String × JVal) :=
  match findA p.1 smap with
  | some fields =>
      let sc := fields.filter (fun q => !isNullJ q.2)
      if sc.isEmpty then .ok p
      else
        match p.2 with
        | .obj fs => .ok (p.1, .obj (dictSet fs "structure" (.obj sc)))
        | _ => .error .typeError
  | none => .ok p

/-- The pure effect of applyOne on an entry value, defined for entries that
are mappings (as all pipeline entries are): attach the non-null subset of
the matched structure fields when non-empty. -/
def structApply (smap : List (String × List (String × JVal))) (k : String)
    (v : JVal) : JVal :=
  match findA k smap with
  | some fields =>
      let sc := fields.filter (fun q => !isNullJ q.2)
      if sc.isEmpty then v
      else
        match v with
        | .obj fs => .obj (dictSet fs "structure" (.obj sc))
        | w => w
  | none => v

/-- Embedding of apply_structure_mappings (json_reader.py lines 330-367). -/
def apply_structure_mappings (structure_data : JVal)
    (config : List (String × JVal)) : Except PyErr (List (String × JVal)) := do
  let has ← pyContains structure_data "sections"
  if !has then .ok config else do
    let secsV ← pyIndex structure_data "sections"
    let secs ← pyIter secsV
    let smap ← buildStructureMap secs
    config.mapM (applyOne smap)

/-- Embedding of the per-entry layer computation of calculate_internal_layering
(json_reader.py lines 374-399), with the elif chain in source order. -/
def layerOfEntry (e : JVal) : Except PyErr Nat := do
  let has ← pyContains e "sound_characteristics"
  if !has then .ok 3 else do
    let ch ← pyIndex e "sound_characteristics"
    let dyn ← pyGet ch "dynamic" .null
    let tim ← pyGet ch "timbral" .null
    if (jeqStr dyn "ambient" || jeqStr dyn "sustained")
        && (jeqStr tim "warm" || jeqStr tim "soft") then .ok 1
    else if jeqStr tim "mellow" || jeqStr tim "calm" then .ok 2
    else if jeqStr dyn "percussive"
        && (jeqStr tim "bright" || jeqStr tim "clear") then .ok 6
    else if jeqStr tim "energetic" || jeqStr tim "aggressive" then .ok 5
    else if jeqStr dyn "punchy" || jeqStr dyn "driving" then .ok 4
    else .ok 3

/-- Embedding of calculate_internal_layering over the whole config: the
result is the internal side table, never part of the output config. -/
def calculate_internal_layering (config : List (String × JVal)) :
    Except PyErr (List (String × Nat)) :=
  config.foldlM (fun acc p => do
      let l ← layerOfEntry p.2
      .ok (dictSet acc p.1 l)) []

/-- The mood-matching part of calculate_ai_scores for one entry and one mood
(json_reader.py lines 414-427). -/
def scoreMood (item : JVal) (prefsL : List String) (score : ℚ) (mood : JVal) :
    Except PyErr ℚ := do
  let nm ← pyGet mood "name" (.str "")
  let moodName ← pyLower nm
  if prefsL.contains moodName then do
    let hasSC ← pyContains item "sound_characteristics"
    if hasSC then do
      let ch ← pyIndex item "sound_characteristics"
      let hasEmo ← pyContains ch "emotional"
      let score1 ←
        if hasEmo then do
          let emoV ← pyIndex ch "emotional"
          let emotions ← pyIter emoV
          emotions.foldlM (fun s emo =>
              if isObjJ emo then do
                let tag ← pyGet emo "tag" (.str "")
                let tagL ← pyLower tag
                if tagL == moodName then do
                  let w ← pyGet emo "weight" (.num 1)
                  addNum s w
                else .ok s
              else .ok s) score
        else .ok score
      let timb ← pyGet ch "timbral" (.str "")
      let timbL ← pyLower timb
      if timbL == moodName then .ok (score1 + 1) else .ok score1
    else .ok score
  else .ok score

/-- The synthesizer-section part of calculate_ai_scores for one entry and one
catalog section (json_reader.py lines 430-439). -/
def scoreSynthSection (item : JVal) (prefsL : List String) (score : ℚ)
    (sec : String × JVal) : Except PyErr ℚ :=
  if prefsL.contains (strLower sec.1) then do
    let hasEmo ← pyContains sec.2 "emotion"
    if hasEmo then do
      let emoV ← pyIndex sec.2 "emotion"
      let emoS ← pyLower emoV
      let emotions := splitCS emoS
      let hasSC ← pyContains item "sound_characteristics"
      if hasSC then do
        let ch ← pyIndex item "sound_characteristics"
        let timb ← pyGet ch "timbral" (.str "")
        let timbL ← pyLower timb
        if emotions.contains timbL then .ok (score + (4 : ℚ) / 5) else .ok score
      else .ok score
    else .ok score
  else .ok score

/-- Embedding of the per-entry score of calculate_ai_scores (json_reader.py
lines 409-442). -/
def scoreOfEntry (moods synth : JVal) (prefsL : List String) (item : JVal) :
    Except PyErr ℚ := do
  let hasMoods ← pyContains moods "moods"
  let s1 ←
    if hasMoods then do
      let moodsV ← pyIndex moods "moods"
      let moodList ← pyIter moodsV
      moodList.foldlM (scoreMood item prefsL) 0
    else .ok 0
  let hasSecs ← pyContains synth "sections"
  if hasSecs then do
    let secsV ← pyIndex synth "sections"
    let secs ← pyItems secsV
    secs.foldlM (scoreSynthSection item prefsL) s1
  else .ok s1

/-- Embedding of calculate_ai_scores over the whole config: the result is the
internal side table, never part of the output config. -/
def calculate_ai_scores (moods synth : JVal) (config : List (String × JVal))
    (prefs : List String) : Except PyErr (List (String × ℚ)) :=
  config.foldlM (fun acc p => do
      let s ← scoreOfEntry moods synth (prefs.map strLower) p.2
      .ok (dictSet acc p.1 s)) []

/-- The result of one pipeline run: the clean config plus the two internal
side tables that generate_clean_config stores on the reader object. -/
structure RunResult where
  config : List (String × JVal)
  layering : List (String × Nat)
  scores : List (String × ℚ)

/-- Embedding of generate_clean_config (json_reader.py lines 444-474):
extract instruments and groups, merge them last-writer-wins, apply structure
mappings, compute the internal side tables, and clean empty fields. -/
def generate_clean_config (guitar group moods synth structd : JVal)
    (prefs : List String) : Except PyErr RunResult := do
  let instruments ← extract_guitar_instruments guitar
  let groups ← extract_group_effects group
  let cfg1 ← apply_structure_mappings structd
    (dictUpdate (dictUpdate [] instruments) groups)
  let layering ← calculate_internal_layering cfg1
  let scores ← calculate_ai_scores moods synth cfg1 prefs
  .ok ⟨cleanFields cfg1, layering, scores⟩

/-- The emitted configuration mapping of one run. -/
def runOutput (guitar group moods synth structd : JVal)
    (prefs : List String) : Except PyErr (List (String × JVal)) :=
  (generate_clean_config guitar group moods synth structd prefs).map
    (fun r => r.config)

mutual

/-- All mapping keys occurring anywhere in a value, at any depth. -/
def allKeysV : JVal → List String
  | .obj fs => allKeysFields fs
  | .arr xs => allKeysElems xs
  | _ => []
termination_by structural v => v

/-- All mapping keys occurring in a field list, at any depth. -/
def allKeysFields : List (String × JVal) → List String
  | [] => []
  | (k, v) :: rest => k :: (allKeysV v ++ allKeysFields rest)
termination_by structural fs => fs

/-- All mapping keys occurring in the elements of a sequence, at any depth. -/
def allKeysElems : List JVal → List String
  | [] => []
  | v :: rest => allKeysV v ++ allKeysElems rest
termination_by structural xs => xs

end

mutual

/-- Embedding of check_for_empty_values from validate_config.py: whether the
tree contains, at any depth, a null, an empty or all-whitespace string, an
empty sequence, or an empty mapping. -/
def valHasEmpty : JVal → Bool
  | .null => true
  | .boolv _ => false
  | .num _ => false
  | .str s => strTrimEmpty s
  | .arr xs => xs.isEmpty || elemsHaveEmpty xs
  | .obj fs => fs.isEmpty || fieldsHaveEmpty fs
termination_by structural v => v

/-- Whether any field value of a mapping contains an emptiness issue. -/
def fieldsHaveEmpty : List (String × JVal) → Bool
  | [] => false
  | (_, v) :: rest => valHasEmpty v || fieldsHaveEmpty rest
termination_by structural fs => fs

/-- Whether any element of a sequence contains an emptiness issue. -/
def elemsHaveEmpty : List JVal → Bool
  | [] => false
  | v :: rest => valHasEmpty v || elemsHaveEmpty rest
termination_by structural xs => xs

end

/-- Every key literal the pipeline itself can write into the output: the
section names and allow-listed parameter names of both extractors and the
structure join. -/
def emittedFixedKeys : List String :=
  ["adsr", "type", "attack", "hold", "decay", "sustain", "release", "curve",
   "guitarParams", "strings", "material", "num_strings", "tuning", "gauge",
   "detune_range", "tension", "harmonics", "vibe_set", "decay_rate",
   "sympathetic_resonance", "filter", "cutoff", "resonance",
   "envelope_amount", "slope", "attack_noise", "intensity", "burst_length",
   "noise_type", "body_resonance", "ir_file", "mix", "pick", "stiffness",
   "noiseProbability", "noiseIntensity", "position", "vibrato", "freq_range",
   "vibrato_hz", "depth_cents", "effects", "soundCharacteristics", "timbral",
   "emotional", "dynamic", "topologicalMetadata", "damping",
   "spectral_complexity", "manifold_position", "synthesis_type",
   "oscillator", "types", "mix_ratios", "detune", "modulation_index",
   "carrier_ratio", "morph_rate", "table_index", "pluck_position",
   "grain_density", "grain_size", "envelope", "delay", "fx",
   "sound_characteristics", "topological_metadata", "structure",
   "sectionName", "attackMul", "decayMul", "sustainMul", "releaseMul",
   "useDynamicGate", "gateThreshold", "gateDecaySec"]

/-- The forbidden internal-metadata key set of the specification. -/
def forbiddenKeys : List String :=
  ["layer", "layering", "score", "ai_score", "internal_layer",
   "internal_score", "stage"]

/-- Case-insensitive membership of a key in the forbidden set. -/
def keyForbidden (k : String) : Bool := forbiddenKeys.contains (strLower k)

/-- Whether no key anywhere in the configuration tree is forbidden. -/
def noForbidden (fs : List (String × JVal)) : Bool :=
  (allKeysFields fs).all (fun k => !keyForbidden k)

/-- Hypothesis of the amended no-internal-metadata claim: no key occurring
anywhere in the guitar, group, or structure source documents is forbidden,
nor becomes forbidden after key normalization. -/
def sourcesKeyOK (guitar group structd : JVal) : Bool :=
  (allKeysV guitar ++ allKeysV group ++ allKeysV structd).all
    (fun k => !keyForbidden k && !keyForbidden (normalizeKey k))

/-- The structure section that the pipeline attaches to the output entry with
the given normalized key, if any: the non-null fields of the last catalog
section whose normalized group name equals the key, as reduced by the final
cleaning step; none when there is no match, when the non-null subset is
empty, or when it is emptied by cleaning. -/
def structureExpected (structure_data : JVal) (k : String) : Option JVal :=
  match pyContains structure_data "sections" with
  | .ok true =>
      match (pyIndex structure_data "sections").bind pyIter with
      | .ok secs =>
          match buildStructureMap secs with
          | .ok smap =>
              match findA k smap with
              | some fields =>
                  let sc := cleanFields (fields.filter (fun q => !isNullJ q.2))
                  if sc.isEmpty then none else some (.obj sc)
              | none => none
          | .error _ => none
      | .error _ => none
  | _ => none

/-- Lookup of a key in an object value; none on other values. -/
def jfind (k : String) (v : JVal) : Option JVal :=
  match v with
  | .obj fs => findA k fs
  | _ => none

/-- The keys allowed inside an emitted attack_noise section. -/
def attackNoiseAllowed : List String := ["intensity", "burst_length", "noise_type"]

/-- Whether the attack_noise section of one entry, reached as
entry.guitarParams.attack_noise, contains only allowed keys. -/
def attackNoiseEntryOK (e : JVal) : Bool :=
  match jfind "guitarParams" e with
  | some (.obj gp) =>
      match findA "attack_noise" gp with
      | some (.obj an) => an.all (fun q => attackNoiseAllowed.contains q.1)
      | some _ => true
      | none => true
  | _ => true

/-- Whether every attack_noise section of every entry of a configuration,
reached as entry.guitarParams.attack_noise, contains only allowed keys (in
particular not the consumed gating flag enabled). -/
def attackNoiseOK (out : List (String × JVal)) : Bool :=
  out.all (fun p => attackNoiseEntryOK p.2)

/-- Invariant of the guitarParams section of an extracted instrument entry:
it is a mapping with distinct keys whose attack_noise value, when present,
is a mapping carrying only allowed keys. -/
def GPInv (gp : JVal) : Prop :=
  ∃ gfs, gp = .obj gfs ∧ (gfs.map Prod.fst).Nodup ∧
    ∀ an, findA "attack_noise" gfs = some an →
      ∃ afs, an = .obj afs ∧ ∀ q ∈ afs, q.1 ∈ attackNoiseAllowed

/-- Invariant of every entry the extractors emit: a mapping with distinct
keys, no structure key, and a guitarParams section satisfying GPInv when
present. -/
def EntryInv (v : JVal) : Prop :=
  ∃ fs, v = .obj fs ∧ (fs.map Prod.fst).Nodup ∧
    findA "structure" fs = none ∧
    ∀ gp, findA "guitarParams" fs = some gp → GPInv gp

/-- Membership of a value in a list of string literals, as the Python tests
value in [s1, s2] compare. -/
def memStr (v : JVal) (ss : List String) : Bool := ss.any (jeqStr v)

/-- First-match-wins evaluation of an ordered rule table over the dynamic and
timbral sound-characteristics fields, with default layer 3. -/
def firstMatchLayer : List ((JVal → JVal → Bool) × Nat) → JVal → JVal → Nat
  | [], _, _ => 3
  | (c, n) :: rest, dyn, tim =>
      if c dyn tim then n else firstMatchLayer rest dyn tim

/-- The layering rule table in the order stated by the claim:
ambient/sustained with warm/soft gives 1, mellow/calm timbre gives 2,
punchy/driving dynamic gives 4, energetic/aggressive timbre gives 5,
percussive dynamic with bright/clear timbre gives 6. -/
def claimedRulesC7 : List ((JVal → JVal → Bool) × Nat) :=
  [(fun d t => memStr d ["ambient", "sustained"] && memStr t ["warm", "soft"], 1),
   (fun _ t => memStr t ["mellow", "calm"], 2),
   (fun d _ => memStr d ["punchy", "driving"], 4),
   (fun _ t => memStr t ["energetic", "aggressive"], 5),
   (fun d t => memStr d ["percussive"] && memStr t ["bright", "clear"], 6)]

/-- The layering rule table in the order the code checks it:
ambient/sustained with warm/soft gives 1, mellow/calm timbre gives 2,
percussive dynamic with bright/clear timbre gives 6, energetic/aggressive
timbre gives 5, punchy/driving dynamic gives 4. -/
def amendedRulesC7 : List ((JVal → JVal → Bool) × Nat) :=
  [(fun d t => memStr d ["ambient", "sustained"] && memStr t ["warm", "soft"], 1),
   (fun _ t => memStr t ["mellow", "calm"], 2),
   (fun d t => memStr d ["percussive"] && memStr t ["bright", "clear"], 6),
   (fun _ t => memStr t ["energetic", "aggressive"], 5),
   (fun d _ => memStr d ["punchy", "driving"], 4)]

/-- Layer assignment as the claim states it: deterministic first-match-wins
over the claimed rule order, default 3, reading the sound-characteristics
fields the way the code does. -/
def claimedLayerC7 (e : JVal) : Except PyErr Nat := do
  let has ← pyContains e "sound_characteristics"
  if !has then .ok 3 else do
    let ch ← pyIndex e "sound_characteristics"
    let dyn ← pyGet ch "dynamic" .null
    let tim ← pyGet ch "timbral" .null
    .ok (firstMatchLayer claimedRulesC7 dyn tim)

/-- Layer assignment as the amended claim states it: first-match-wins over
the corrected rule order. -/
def amendedLayerC7 (e : JVal) : Except PyErr Nat := do
  let has ← pyContains e "sound_characteristics"
  if !has then .ok 3 else do
    let ch ← pyIndex e "sound_characteristics"
    let dyn ← pyGet ch "dynamic" .null
    let tim ← pyGet ch "timbral" .null
    .ok (firstMatchLayer amendedRulesC7 dyn tim)

/-- Lexicographic comparison of character lists by code point. -/
def charListLt : List Char → List Char → Bool
  | [], [] => false
  | [], _ :: _ => true
  | _ :: _, [] => false
  | a :: as, b :: bs =>
      if a.toNat < b.toNat then true
      else if b.toNat < a.toNat then false
      else charListLt as bs

/-- Lexicographic string order used by the sorted serialization. -/
def strLtB (a b : String) : Bool := charListLt a.data b.data

/-- Insertion into a key-sorted field list. -/
def insertByKey (p : String × JVal) :
    List (String × JVal) → List (String × JVal)
  | [] => [p]
  | q :: rest => if strLtB p.1 q.1 then p :: q :: rest else q :: insertByKey p rest

/-- Sorting of a field list by key, as json.dump with sort_keys does at every
mapping. -/
def sortByKey : List (String × JVal) → List (String × JVal)
  | [] => []
  | p :: rest => insertByKey p (sortByKey rest)

mutual

/-- Recursively sort every mapping of a value by key. -/
def sortAllV : JVal → JVal
  | .obj fs => .obj (sortByKey (sortAllFields fs))
  | .arr xs => .arr (sortAllElems xs)
  | v => v
termination_by structural v => v

/-- Recursively sort the values of a field list. -/
def sortAllFields : List (String × JVal) → List (String × JVal)
  | [] => []
  | (k, v) :: rest => (k, sortAllV v) :: sortAllFields rest
termination_by structural fs => fs

/-- Recursively sort the elements of a sequence. -/
def sortAllElems : List JVal → List JVal
  | [] => []
  | v :: rest => sortAllV v :: sortAllElems rest
termination_by structural xs => xs

end

mutual

/-- Deterministic textual rendering of a value. -/
def renderV : JVal → String
  | .null => "null"
  | .boolv b => if b then "true" else "false"
  | .num q => toString q.num ++ "/" ++ toString q.den
  | .str s => "\"" ++ s ++ "\""
  | .arr xs => "[" ++ renderElems xs ++ "]"
  | .obj fs => "\x7b" ++ renderFields fs ++ "\x7d"
termination_by structural v => v

/-- Rendering of the fields of a mapping. -/
def renderFields : List (String × JVal) → String
  | [] => ""
  | [(k, v)] => "\"" ++ k ++ "\": " ++ renderV v
  | (k, v) :: rest => "\"" ++ k ++ "\": " ++ renderV v ++ ", " ++ renderFields rest
termination_by structural fs => fs

/-- Rendering of the elements of a sequence. -/
def renderElems : List JVal → String
  | [] => ""
  | [v] => renderV v
  | v :: rest => renderV v ++ ", " ++ renderElems rest
termination_by structural xs => xs

end

/-- Embedding of save_config serialization (json.dump with sort_keys=True):
a fixed deterministic rendering of the configuration with every mapping
sorted by key.  The byte-level details of the json module (indentation,
escaping) are abstracted into this fixed rendering function. -/
def serializeConfig (fs : List (String × JVal)) : String :=
  renderV (sortAllV (.obj fs))

/-- Claim-side condition of C2 as stated: some section of the structure
catalog has a normalized group name equal to the key and at least one
non-null field among the eight structure fields. -/
def claimStructureMatch (structure_data : JVal) (k : String) : Bool :=
  match pyContains structure_data "sections",
      (pyIndex structure_data "sections").bind pyIter with
  | .ok true, .ok secs =>
      secs.any (fun sec =>
        match pyContains sec "group", pyIndex sec "group" with
        | .ok true, .ok (.str g) =>
            normalizeKey g == k &&
              structFieldNames.any (fun fn =>
                match pyGet sec fn .null with
                | .ok v => !isNullJ v
                | .error _ => false)
        | _, _ => false)
  | _, _ => false

/-- An empty JSON document, used where a run needs a source that plays no
role in the scenario. -/
def emptyDoc : JVal := .obj []

/-- The instrument record of the C5 scenario: a null envelope, a strings
section with one real field, an empty-string field and a null field, and an
empty fx list. -/
def recordC5 : JVal := .obj [
  ("envelope", .null),
  ("strings", .obj [("material", .str "nylon"), ("empty_field", .str ""),
    ("null_field", .null)]),
  ("fx", .arr [])]

/-- A guitar catalog containing exactly the C5 scenario record. -/
def guitarC5 : JVal := .obj [("guitar_types", .obj [("acoustic", .obj [
  ("groups", .obj [("classical", recordC5)])])])]

/-- A guitar catalog with one malformed (null) record next to a well-formed
record. -/
def guitarC4 : JVal := .obj [("guitar_types", .obj [("acoustic", .obj [
  ("groups", .obj [
    ("bad", .null),
    ("good", .obj [("strings", .obj [("material", .str "steel")])])])])])]

/-- A group catalog whose only record carries an envelope attack list
containing a whitespace-only string. -/
def groupDocC1 : JVal := .obj [("groups", .obj [("g", .obj [
  ("envelope", .obj [("attack", .arr [.str " "])])])])]

/-- The configuration the pipeline emits for groupDocC1. -/
def outC1 : List (String × JVal) :=
  [("g", .obj [("envelope", .obj [("attack", .arr [.str " "])])])]

/-- A group catalog whose record g has only a synthesis type. -/
def groupDocC2 : JVal := .obj [("groups", .obj [("g", .obj [
  ("synthesis_type", .str "subtractive")])])]

/-- A structure catalog with two sections for group g: the first carries a
non-null sectionName, the second (which wins, being written last into the
lookup table) carries only an empty-string sectionName. -/
def structDocC2 : JVal := .obj [("sections", .arr [
  .obj [("group", .str "g"), ("sectionName", .str "Intro")],
  .obj [("group", .str "g"), ("sectionName", .str "")]])]

/-- The entry the pipeline emits for groupDocC2 under structDocC2. -/
def entryOutC2 : JVal := .obj [("synthesis_type", .str "subtractive")]

/-- A group catalog whose record carries an effects list whose element uses
the key layer, a forbidden internal-metadata name. -/
def groupDocC6 : JVal := .obj [("groups", .obj [("g", .obj [
  ("fx", .arr [.obj [("layer", .num 1)]])])])]

/-- The configuration the pipeline emits for groupDocC6. -/
def outC6 : List (String × JVal) :=
  [("g", .obj [("fx", .arr [.obj [("layer", .num 1)]])])]

/-- A config entry whose sound characteristics are punchy and energetic, on
which the claimed rule order and the coded rule order disagree. -/
def entryC7 : JVal := .obj [("sound_characteristics", .obj [
  ("timbral", .str "energetic"), ("dynamic", .str "punchy")])]

/-- A guitar catalog whose record gates its attack noise with the number 1,
a truthy non-boolean, and carries an extra field that must not be copied. -/
def guitarC10 : JVal := .obj [("guitar_types", .obj [("t", .obj [
  ("groups", .obj [("i", .obj [
    ("attack_noise", .obj [("enabled", .num 1), ("intensity", .num (1/2)),
      ("extra", .str "zz")])])])])])]

/-- The record inside guitarC10. -/
def recordC10 : JVal := .obj [
  ("attack_noise", .obj [("enabled", .num 1), ("intensity", .num (1/2)),
    ("extra", .str "zz")])]

/-- The configuration the pipeline emits for guitarC10. -/
def outC10 : List (String × JVal) :=
  [("i", .obj [("guitarParams", .obj [("attack_noise", .obj [
    ("intensity", .num (1/2))])])])]

/-- The group catalog of the Intro Pad scenario. -/
def groupDocIP : JVal := .obj [("groups", .obj [("Intro Pad", .obj [
  ("synthesis_type", .str "pad")])])]

/-- The structure catalog of the Intro Pad scenario. -/
def structDocIP : JVal := .obj [("sections", .arr [
  .obj [("group", .str "intro_pad"), ("sectionName", .str "Intro"),
    ("attackMul", .num (12/10)), ("decayMul", .null)]])]

/-- The entry the pipeline emits for the Intro Pad scenario. -/
def entryIP : JVal := .obj [("synthesis_type", .str "pad"),
  ("structure", .obj [("sectionName", .str "Intro"),
    ("attackMul", .num (12/10))])]

/-- The configuration the pipeline emits for the Intro Pad scenario. -/
def outIP : List (String × JVal) := [("intro_pad", entryIP)]

theorem findA_cons {α : Type} (k : String) (p : String × α)
    (rest : List (String × α)) :
    findA k (p :: rest) = if p.1 = k then some p.2 else findA k rest := by
  by_cases h : p.1 = k
  · simp [findA, List.find?_cons_of_pos, h]
  · simp only [findA, if_neg h]
    rw [List.find?_cons_of_neg]
    simp [h]

theorem findA_eq_none {α : Type} {k : String} {fs : List (String × α)}
    (h : k ∉ fs.map Prod.fst) : findA k fs = none := by
  induction fs with
  | nil => rfl
  | cons p rest ih =>
      simp only [List.map_cons, List.mem_cons] at h
      push_neg at h
      rw [findA_cons, if_neg (fun hh => h.1 hh.symm)]
      exact ih h.2

theorem findA_some_mem {α : Type} {k : String} {fs : List (String × α)} {v : α}
    (h : findA k fs = some v) : (k, v) ∈ fs := by
  induction fs with
  | nil => simp [findA] at h
  | cons p rest ih =>
      rw [findA_cons] at h
      by_cases hk : p.1 = k
      · rw [if_pos hk] at h
        injection h with h2
        obtain ⟨pk, pv⟩ := p
        simp only at hk h2
        subst hk
        subst h2
        exact List.mem_cons_self _ _
      · rw [if_neg hk] at h
        exact List.mem_cons_of_mem _ (ih h)

theorem findA_append {α : Type} (k : String) (fs gs : List (String × α)) :
    findA k (fs ++ gs) =
      match findA k fs with
      | some v => some v
      | none => findA k gs := by
  induction fs with
  | nil => simp [findA]
  | cons p rest ih =>
      by_cases h : p.1 = k
      · simp [findA_cons, h, ih]
      · simp [findA_cons, h, ih]

theorem keys_dictSet {α : Type} (fs : List (String × α)) (k : String) (v : α) :
    (dictSet fs k v).map Prod.fst =
      if fs.any (fun p => p.1 == k) then fs.map Prod.fst
      else fs.map Prod.fst ++ [k] := by
  unfold dictSet
  by_cases h : fs.any (fun p => p.1 == k)
  · rw [if_pos h, if_pos h, List.map_map]
    congr 1
    funext p
    by_cases hp : p.1 = k
    · simp [Function.comp, hp]
    · simp [Function.comp, hp]
  · rw [if_neg h, if_neg h]
    simp

theorem nodup_keys_dictSet {α : Type} {fs : List (String × α)} (k : String)
    (v : α) (h : (fs.map Prod.fst).Nodup) :
    ((dictSet fs k v).map Prod.fst).Nodup := by
  rw [keys_dictSet]
  by_cases ha : fs.any (fun p => p.1 == k)
  · rwa [if_pos ha]
  · rw [if_neg ha]
    rw [List.any_eq_true] at ha
    push_neg at ha
    refine List.Nodup.append h (List.nodup_singleton k) ?_
    intro a haf hak
    rcases List.mem_map.1 haf with ⟨p, hp, hpa⟩
    rcases List.mem_singleton.1 hak with rfl
    exact absurd (by simpa using hpa) (by simpa using ha p hp)

theorem findA_setMap {α : Type} (k2 k : String) (v : α) :
    ∀ fs : List (String × α),
      findA k2 (fs.map (fun p => if p.1 = k then (k, v) else p)) =
        if k2 = k then (if k ∈ fs.map Prod.fst then some v else none)
        else findA k2 fs := by
  intro fs
  induction fs with
  | nil => by_cases h : k2 = k <;> simp [findA, h]
  | cons q rest ih =>
      by_cases hq : q.1 = k
      · by_cases h2 : k2 = k
        · subst h2
          simp [findA_cons, hq]
        · have h2s : ¬k = k2 := fun hh => h2 hh.symm
          simp [findA_cons, hq, h2, h2s, ih]
      · by_cases h2 : k2 = k
        · subst h2
          have hne : ¬k2 = q.1 := fun hh => hq hh.symm
          simp [findA_cons, hq, ih]
          by_cases hm : k2 ∈ List.map Prod.fst rest
          · rw [if_pos hm, if_pos (List.mem_cons_of_mem _ hm)]
          · rw [if_neg hm, if_neg (by simp [List.mem_cons, hne, hm])]
        · simp [findA_cons, hq, h2, ih]

theorem findA_dictSet {α : Type} (k2 k : String) (fs : List (String × α))
    (v : α) :
    findA k2 (dictSet fs k v) = if k2 = k then some v else findA k2 fs := by
  unfold dictSet
  by_cases ha : fs.any (fun p => p.1 == k)
  · rw [if_pos ha]
    have hmem : k ∈ fs.map Prod.fst := by
      rw [List.any_eq_true] at ha
      rcases ha with ⟨p, hp, hpk⟩
      exact List.mem_map.2 ⟨p, hp, by simpa using hpk⟩
    have hmap : fs.map (fun p => if p.1 == k then (k, v) else p)
        = fs.map (fun p => if p.1 = k then (k, v) else p) := by
      simp
    rw [hmap, findA_setMap]
    by_cases h2 : k2 = k
    · rw [if_pos h2, if_pos h2, if_pos hmem]
    · rw [if_neg h2, if_neg h2]
  · rw [if_neg ha, findA_append]
    have hnone : k ∉ fs.map Prod.fst := by
      intro hk
      rcases List.mem_map.1 hk with ⟨p, hp, hpk⟩
      rw [List.any_eq_true] at ha
      push_neg at ha
      exact absurd (by simpa using hpk) (by simpa using ha p hp)
    by_cases h2 : k2 = k
    · subst h2
      rw [findA_eq_none hnone]
      simp [findA_cons]
    · cases hf : findA k2 fs
      · simp only [hf]
        rw [if_neg h2]
        rw [findA_cons, if_neg (fun hh : k = k2 => h2 hh.symm)]
        rfl
      · simp only [hf, if_neg h2]

theorem mem_dictSet {α : Type} {p : String × α} {fs : List (String × α)}
    {k : String} {v : α} (h : p ∈ dictSet fs k v) : p ∈ fs ∨ p = (k, v) := by
  unfold dictSet at h
  by_cases ha : fs.any (fun q => q.1 == k)
  · rw [if_pos ha] at h
    rcases List.mem_map.1 h with ⟨q, hq, hqp⟩
    by_cases hqk : q.1 = k
    · right
      rw [if_pos (by simpa using hqk)] at hqp
      exact hqp.symm
    · left
      rw [if_neg (by simpa using hqk)] at hqp
      exact hqp ▸ hq
  · rw [if_neg ha] at h
    rcases List.mem_append.1 h with h1 | h1
    · exact Or.inl h1
    · exact Or.inr (List.mem_singleton.1 h1)

theorem mem_dictUpdate {α : Type} {p : String × α} :
    ∀ {upd base : List (String × α)}, p ∈ dictUpdate base upd →
      p ∈ base ∨ p ∈ upd := by
  intro upd
  induction upd with
  | nil => intro base h; exact Or.inl h
  | cons q rest ih =>
      intro base h
      unfold dictUpdate at h
      rw [List.foldl_cons] at h
      rcases ih h with h1 | h1
      · rcases mem_dictSet h1 with h2 | h2
        · exact Or.inl h2
        · right
          subst h2
          obtain ⟨qk, qv⟩ := q
          exact List.mem_cons_self _ _
      · exact Or.inr (List.mem_cons_of_mem _ h1)

theorem nodup_keys_dictUpdate {α : Type} :
    ∀ (upd base : List (String × α)), (base.map Prod.fst).Nodup →
      ((dictUpdate base upd).map Prod.fst).Nodup := by
  intro upd
  induction upd with
  | nil => intro base h; exact h
  | cons q rest ih =>
      intro base h
      unfold dictUpdate
      rw [List.foldl_cons]
      exact ih _ (nodup_keys_dictSet _ _ h)

theorem findA_dictUpdate {α : Type} :
    ∀ (upd base : List (String × α)), (upd.map Prod.fst).Nodup →
      ∀ k, findA k (dictUpdate base upd) =
        match findA k upd with
        | some v => some v
        | none => findA k base := by
  intro upd
  induction upd with
  | nil => intro base _ k; rfl
  | cons q rest ih =>
      intro base h k
      unfold dictUpdate
      rw [List.foldl_cons]
      have hrest : (rest.map Prod.fst).Nodup := (List.nodup_cons.1 h).2
      have hk1 : q.1 ∉ rest.map Prod.fst := (List.nodup_cons.1 h).1
      have := ih (dictSet base q.1 q.2) hrest k
      unfold dictUpdate at this
      rw [this, findA_cons]
      by_cases hq : q.1 = k
      · subst hq
        rw [if_pos rfl]
        rw [findA_eq_none hk1]
        simp [findA_dictSet]
      · rw [if_neg hq]
        cases hf : findA k rest
        · simp only [hf]
          rw [findA_dictSet, if_neg (fun hh : k = q.1 => hq hh.symm)]
        · simp [hf]

@[simp] theorem ok_bindE {α β : Type} (a : α) (f : α → Except PyErr β) :
    (Except.ok a >>= f) = f a := rfl

@[simp] theorem pure_bindE {α β : Type} (a : α) (f : α → Except PyErr β) :
    ((pure a : Except PyErr α) >>= f) = f a := rfl

@[simp] theorem error_bindE {α β : Type} (e : PyErr) (f : α → Except PyErr β) :
    ((Except.error e : Except PyErr α) >>= f) = .error e := rfl

theorem foldlM_except_inv {α β : Type} (P : β → Prop)
    {f : β → α → Except PyErr β} :
    ∀ (l : List α) (init : β), P init →
      (∀ b a b2, a ∈ l → P b → f b a = .ok b2 → P b2) →
      ∀ b2, l.foldlM f init = .ok b2 → P b2 := by
  intro l
  induction l with
  | nil =>
      intro init hinit _ b2 h
      simp only [List.foldlM_nil] at h
      cases h
      exact hinit
  | cons a rest ih =>
      intro init hinit hstep b2 h
      rw [List.foldlM_cons] at h
      cases hf : f init a with
      | error e =>
          rw [hf] at h
          exact Except.noConfusion h
      | ok b1 =>
          rw [hf] at h
          have hb1 : P b1 := hstep init a b1 (List.mem_cons_self _ _) hinit hf
          exact ih b1 hb1
            (fun b x b3 hx => hstep b x b3 (List.mem_cons_of_mem _ hx)) b2 h

theorem mapM_ok_forall {α β : Type} {f : α → Except PyErr β} {g : α → β} :
    ∀ l : List α, (∀ a ∈ l, f a = .ok (g a)) → l.mapM f = .ok (l.map g) := by
  intro l
  induction l with
  | nil => intro _; rfl
  | cons a rest ih =>
      intro h
      rw [List.mapM_cons, h a (List.mem_cons_self _ _)]
      simp only [ih (fun x hx => h x (List.mem_cons_of_mem _ hx))]
      rfl

mutual

theorem cleanValOpt_idem : ∀ v w, cleanValOpt v = some w → cleanValOpt w = some w
  | .null, w => by simp [cleanValOpt]
  | .boolv b, w => by
      simp only [cleanValOpt, Option.some.injEq]
      rintro rfl
      rfl
  | .num q, w => by
      simp only [cleanValOpt, Option.some.injEq]
      rintro rfl
      rfl
  | .str s, w => by
      by_cases h : strTrimEmpty s = true
      · simp [cleanValOpt, h]
      · simp only [cleanValOpt, if_neg h, Option.some.injEq]
        rintro rfl
        simp [cleanValOpt, h]
  | .arr xs, w => by
      by_cases he : xs.isEmpty = true
      · simp [cleanValOpt, he]
      · by_cases hc : (cleanElems xs).isEmpty = true
        · simp [cleanValOpt, he, hc]
        · simp only [cleanValOpt, if_neg he, if_neg hc, Option.some.injEq]
          rintro rfl
          have h2 : cleanElems (cleanElems xs) = cleanElems xs := cleanElems_idem xs
          simp [cleanValOpt, hc, h2]
  | .obj fs, w => by
      by_cases hc : (cleanFields fs).isEmpty = true
      · simp [cleanValOpt, hc]
      · simp only [cleanValOpt, if_neg hc, Option.some.injEq]
        rintro rfl
        have h2 : cleanFields (cleanFields fs) = cleanFields fs := cleanFields_idem fs
        simp [cleanValOpt, h2, hc]

theorem cleanFields_idem : ∀ fs, cleanFields (cleanFields fs) = cleanFields fs
  | [] => rfl
  | (k, v) :: rest => by
      cases h : cleanValOpt v with
      | none => simp [cleanFields, h, cleanFields_idem rest]
      | some w =>
          have hw : cleanValOpt w = some w := cleanValOpt_idem v w h
          simp [cleanFields, h, hw, cleanFields_idem rest]

theorem cleanElems_idem : ∀ xs, cleanElems (cleanElems xs) = cleanElems xs
  | [] => rfl
  | .null :: rest => by simp [cleanElems, cleanElems_idem rest]
  | .boolv b :: rest => by simp [cleanElems, cleanElems_idem rest]
  | .num q :: rest => by simp [cleanElems, cleanElems_idem rest]
  | .str s :: rest => by simp [cleanElems, cleanElems_idem rest]
  | .arr xs2 :: rest => by simp [cleanElems, cleanElems_idem rest]
  | .obj fs :: rest => by
      by_cases hc : (cleanFields fs).isEmpty = true
      · simp [cleanElems, hc, cleanElems_idem rest]
      · have h2 : cleanFields (cleanFields fs) = cleanFields fs := cleanFields_idem fs
        simp [cleanElems, hc, h2, cleanElems_idem rest]

end

theorem keys_cleanFields_sublist :
    ∀ fs : List (String × JVal),
      ((cleanFields fs).map Prod.fst).Sublist (fs.map Prod.fst) := by
  intro fs
  induction fs with
  | nil => simp [cleanFields]
  | cons p rest ih =>
      obtain ⟨k, v⟩ := p
      cases h : cleanValOpt v with
      | none =>
          simp only [cleanFields, h, List.map_cons]
          exact ih.cons _
      | some w =>
          simp only [cleanFields, h, List.map_cons]
          exact ih.cons₂ _

theorem nodup_keys_cleanFields {fs : List (String × JVal)}
    (h : (fs.map Prod.fst).Nodup) : ((cleanFields fs).map Prod.fst).Nodup :=
  (keys_cleanFields_sublist fs).nodup h

theorem findA_cleanFields {k : String} :
    ∀ {fs : List (String × JVal)}, (fs.map Prod.fst).Nodup →
      findA k (cleanFields fs) = (findA k fs).bind cleanValOpt := by
  intro fs
  induction fs with
  | nil => intro _; rfl
  | cons p rest ih =>
      intro hnd
      obtain ⟨k1, v⟩ := p
      have hnd1 : (rest.map Prod.fst).Nodup := (List.nodup_cons.1 hnd).2
      have hk1 : k1 ∉ rest.map Prod.fst := (List.nodup_cons.1 hnd).1
      by_cases hk : k1 = k
      · subst hk
        cases h : cleanValOpt v with
        | none =>
            have hnone : findA k1 (cleanFields rest) = none :=
              findA_eq_none
                (fun hm => hk1 ((keys_cleanFields_sublist rest).mem hm))
            simp [cleanFields, h, findA_cons, hnone]
        | some w =>
            simp [cleanFields, h, findA_cons]
      · cases h : cleanValOpt v with
        | none =>
            simp only [cleanFields, h, findA_cons, if_neg hk]
            exact ih hnd1
        | some w =>
            simp only [cleanFields, h, findA_cons, if_neg hk]
            exact ih hnd1

/-- C3: for every JSON-like tree x, applying the emptiness reducer twice
gives the same result as applying it once:
clean_empty_fields (clean_empty_fields x) = clean_empty_fields x. -/
theorem c3_reduce_idempotent :
    ∀ x : JVal, clean_empty_fields (clean_empty_fields x) = clean_empty_fields x := by
  intro x
  cases x with
  | obj fs => simp [clean_empty_fields, cleanFields_idem fs]
  | null => rfl
  | boolv b => rfl
  | num q => rfl
  | str s => rfl
  | arr xs => rfl

@[simp] theorem isObjJ_null : isObjJ .null = false := rfl

@[simp] theorem isObjJ_boolv (b : Bool) : isObjJ (.boolv b) = false := rfl

@[simp] theorem isObjJ_num (q : ℚ) : isObjJ (.num q) = false := rfl

@[simp] theorem isObjJ_str (s : String) : isObjJ (.str s) = false := rfl

@[simp] theorem isObjJ_arr (xs : List JVal) : isObjJ (.arr xs) = false := rfl

@[simp] theorem isObjJ_obj (fs : List (String × JVal)) : isObjJ (.obj fs) = true := rfl

@[simp] theorem isNullJ_null : isNullJ .null = true := rfl

@[simp] theorem isNullJ_boolv (b : Bool) : isNullJ (.boolv b) = false := rfl

@[simp] theorem isNullJ_num (q : ℚ) : isNullJ (.num q) = false := rfl

@[simp] theorem isNullJ_str (s : String) : isNullJ (.str s) = false := rfl

@[simp] theorem isNullJ_arr (xs : List JVal) : isNullJ (.arr xs) = false := rfl

@[simp] theorem isNullJ_obj (fs : List (String × JVal)) : isNullJ (.obj fs) = false := rfl

/-- C9: within clean_empty_fields, every list element that is neither a
mapping nor null is kept unchanged, in order, in the cleaned list; in
particular empty or all-whitespace strings and sequences (even empty ones)
occurring as sequence elements survive cleaning as they are.  The non-mapping
residue of the cleaned list is exactly the non-mapping non-null residue of
the original list. -/
theorem c9_list_elements_kept :
    ∀ xs : List JVal, (cleanElems xs).filter (fun v => !isObjJ v)
      = xs.filter (fun v => !isObjJ v && !isNullJ v) := by
  intro xs
  induction xs with
  | nil => rfl
  | cons v rest ih =>
      cases v with
      | null => simp [cleanElems, ih]
      | boolv b => simp [cleanElems, ih]
      | num q => simp [cleanElems, ih]
      | str s => simp [cleanElems, ih]
      | arr ys => simp [cleanElems, ih]
      | obj fs =>
          by_cases hc : (cleanFields fs).isEmpty = true
          · simp [cleanElems, hc, ih]
          · simp [cleanElems, hc, ih]

/-- C8: for fixed source documents and a fixed preference list, two
executions of the pipeline produce equal CleanConfig mappings and identical
serialized output documents. -/
theorem c8_deterministic (guitar group moods synth structd : JVal)
    (prefs : List String) (r1 r2 : RunResult)
    (h1 : generate_clean_config guitar group moods synth structd prefs = .ok r1)
    (h2 : generate_clean_config guitar group moods synth structd prefs = .ok r2) :
    r1.config = r2.config ∧ serializeConfig r1.config = serializeConfig r2.config := by
  rw [h1] at h2
  injection h2 with h3
  subst h3
  exact ⟨rfl, rfl⟩

/-- Witness for C8 at an empty set of sources. -/
theorem c8_deterministic_witness :
    generate_clean_config emptyDoc emptyDoc emptyDoc emptyDoc emptyDoc [] =
        .ok ⟨[], [], []⟩
    ∧ ((⟨[], [], []⟩ : RunResult).config = (⟨[], [], []⟩ : RunResult).config
      ∧ serializeConfig (⟨[], [], []⟩ : RunResult).config
          = serializeConfig (⟨[], [], []⟩ : RunResult).config) :=
  ⟨rfl, c8_deterministic emptyDoc emptyDoc emptyDoc emptyDoc emptyDoc []
    ⟨[], [], []⟩ ⟨[], [], []⟩ rfl rfl⟩

/-- C7 counterexample: on an entry whose dynamic is punchy and whose timbre
is energetic, the code assigns layer 5 (the energetic/aggressive elif comes
before the punchy/driving one), while the order stated by the claim assigns
4; the claimed first-match order disagrees with the code. -/
theorem c7_counterexample :
    layerOfEntry entryC7 = .ok 5 ∧ claimedLayerC7 entryC7 = .ok 4
      ∧ layerOfEntry entryC7 ≠ claimedLayerC7 entryC7 := by
  refine ⟨rfl, rfl, ?_⟩
  intro h
  have h5 : layerOfEntry entryC7 = .ok 5 := rfl
  have h4 : claimedLayerC7 entryC7 = .ok 4 := rfl
  rw [h5, h4] at h
  injection h with h6
  exact absurd h6 (by decide)

/-- C7 amended: the internal layer is assigned deterministically by
first-match-wins over the sound-characteristics fields in the order:
ambient/sustained dynamic with warm/soft timbre gives 1, mellow/calm timbre
gives 2, percussive dynamic with bright/clear timbre gives 6,
energetic/aggressive timbre gives 5, punchy/driving dynamic gives 4, and
otherwise the default 3. -/
theorem c7_layering_first_match :
    ∀ e : JVal, layerOfEntry e = amendedLayerC7 e := by
  intro e
  unfold layerOfEntry amendedLayerC7
  cases hc : pyContains e "sound_characteristics" with
  | error err => simp [hc]
  | ok has =>
      cases has with
      | false => simp [hc]
      | true =>
          cases hx : pyIndex e "sound_characteristics" with
          | error err => simp [hc, hx]
          | ok ch =>
              cases hd : pyGet ch "dynamic" JVal.null with
              | error err => simp [hc, hx, hd]
              | ok dyn =>
                  cases ht : pyGet ch "timbral" JVal.null with
                  | error err => simp [hc, hx, hd, ht]
                  | ok tim =>
                      simp only [hc, hx, hd, ht, ok_bindE, Bool.not_true,
                        firstMatchLayer, amendedRulesC7, memStr, List.any_cons,
                        List.any_nil, Bool.or_false, if_false]
                      split_ifs <;> rfl

/-- C1: the pipeline violates the no-emptiness invariant: for groupDocC1 the
run succeeds and its output keeps a whitespace-only string inside a list, so
the emitted tree fails the check done by the repository validator
check_for_empty_values, embedded here as valHasEmpty. -/
theorem c1_output_keeps_empty_string :
    runOutput emptyDoc groupDocC1 emptyDoc emptyDoc emptyDoc [] = .ok outC1
      ∧ valHasEmpty (.obj outC1) = true := ⟨rfl, rfl⟩

/-- C4: a malformed record is not skipped: on guitarC4 the membership test
on the null record raises a TypeError, so extraction and with it the whole
run abort, and the well-formed record good produces no output. -/
theorem c4_malformed_record_aborts :
    extract_guitar_instruments guitarC4 = .error .typeError
      ∧ runOutput guitarC4 emptyDoc emptyDoc emptyDoc emptyDoc []
          = .error .typeError := ⟨rfl, rfl⟩

/-- C5: on the scenario record with a null envelope, the extractor raises a
TypeError while testing parameter membership in the null envelope, instead
of producing the entry guitarParams.strings.material = nylon. -/
theorem c5_null_envelope_raises :
    buildInstrumentConfig recordC5 = .error .typeError
      ∧ runOutput guitarC5 emptyDoc emptyDoc emptyDoc emptyDoc []
          = .error .typeError := ⟨rfl, rfl⟩

/-- C2 counterexample: the run on structDocC2 succeeds and its only entry g
matches a catalog section with a non-null field (so the claim requires a
structure section holding that subset), yet the emitted entry has no
structure key: the last matching section wins in the lookup table and its
only non-null field, an empty string, is then removed by cleaning. -/
theorem c2_counterexample :
    runOutput emptyDoc groupDocC2 emptyDoc emptyDoc structDocC2 []
        = .ok [("g", entryOutC2)]
      ∧ claimStructureMatch structDocC2 "g" = true
      ∧ jfind "structure" entryOutC2 = none := ⟨rfl, rfl, rfl⟩

/-- C6 counterexample: a run over groupDocC6, whose record carries an fx
element keyed layer, emits that key into the output tree, so the output
contains a forbidden internal-metadata key. -/
theorem c6_counterexample :
    runOutput emptyDoc groupDocC6 emptyDoc emptyDoc emptyDoc [] = .ok outC6
      ∧ noForbidden outC6 = false := ⟨rfl, rfl⟩

theorem mem_cleanFields {p : String × JVal} :
    ∀ {fs : List (String × JVal)}, p ∈ cleanFields fs →
      ∃ v0, (p.1, v0) ∈ fs ∧ cleanValOpt v0 = some p.2 := by
  intro fs
  induction fs with
  | nil => intro h; exact absurd h (by simp [cleanFields])
  | cons q rest ih =>
      obtain ⟨k1, v1⟩ := q
      intro h
      cases hcv : cleanValOpt v1 with
      | none =>
          rw [cleanFields, hcv] at h
          rcases ih h with ⟨v0, hm, hv0⟩
          exact ⟨v0, List.mem_cons_of_mem _ hm, hv0⟩
      | some w =>
          rw [cleanFields, hcv] at h
          rcases List.mem_cons.1 h with h1 | h1
          · refine ⟨v1, ?_, ?_⟩
            · rw [show p.1 = k1 from by rw [h1]]
              exact List.mem_cons_self _ _
            · rw [hcv, show p.2 = w from by rw [h1]]
          · rcases ih h1 with ⟨v0, hm, hv0⟩
            exact ⟨v0, List.mem_cons_of_mem _ hm, hv0⟩

theorem keys_optField (k : String) (o : Option (List (String × JVal))) :
    ((optField k o).map Prod.fst).Sublist [k] := by
  cases o <;> simp [optField]

theorem keys_optFieldArr (k : String) (o : Option (List JVal)) :
    ((optFieldArr k o).map Prod.fst).Sublist [k] := by
  cases o <;> simp [optFieldArr]

theorem findA_optField_ne {k2 k : String} (h : k2 ≠ k)
    (o : Option (List (String × JVal))) : findA k2 (optField k o) = none := by
  cases o with
  | none => rfl
  | some cfg =>
      simp only [optField, findA_cons]
      rw [if_neg (fun hh : (k, JVal.obj cfg).1 = k2 => h (by simpa using hh.symm))]
      rfl

theorem findA_optFieldArr_ne {k2 k : String} (h : k2 ≠ k)
    (o : Option (List JVal)) : findA k2 (optFieldArr k o) = none := by
  cases o with
  | none => rfl
  | some es =>
      simp only [optFieldArr, findA_cons]
      rw [if_neg (fun hh : (k, JVal.arr es).1 = k2 => h (by simpa using hh.symm))]
      rfl

theorem selectFields_keys {v : JVal} :
    ∀ {allow : List String} {cfg}, selectFields v allow = .ok cfg →
      ((cfg.map Prod.fst).Sublist allow) ∧ ∀ p ∈ cfg, p.1 ∈ allow := by
  intro allow
  induction allow with
  | nil =>
      intro cfg h
      cases h
      exact ⟨by simp, by simp⟩
  | cons a rest ih =>
      intro cfg h
      rw [selectFields] at h
      cases hc : pyContains v a with
      | error e => rw [hc] at h; exact absurd h (by simp)
      | ok c =>
          rw [hc, ok_bindE] at h
          by_cases hcc : c = true
          · subst hcc
            rw [if_pos rfl] at h
            cases hx : pyIndex v a with
            | error e => rw [hx] at h; exact absurd h (by simp)
            | ok x =>
                rw [hx, ok_bindE] at h
                cases ht : selectFields v rest with
                | error e => rw [ht] at h; exact absurd h (by simp)
                | ok tail =>
                    rw [ht, ok_bindE] at h
                    cases h
                    rcases ih ht with ⟨h1, h2⟩
                    refine ⟨by simpa using h1.cons₂ a, ?_⟩
                    intro p hp
                    rcases List.mem_cons.1 hp with h3 | h3
                    · rw [h3]
                      exact List.mem_cons_self _ _
                    · exact List.mem_cons_of_mem _ (h2 p h3)
          · rw [if_neg hcc] at h
            rcases ih h with ⟨h1, h2⟩
            exact ⟨h1.cons a, fun p hp => List.mem_cons_of_mem _ (h2 p hp)⟩

theorem attackNoiseSection_keys {record : JVal} {cfg : List (String × JVal)}
    (h : attackNoiseSection record = .ok (some cfg)) :
    ∀ p ∈ cfg, p.1 ∈ attackNoiseAllowed := by
  rw [attackNoiseSection] at h
  cases hc : pyContains record "attack_noise" with
  | error e => rw [hc] at h; exact absurd h (by simp)
  | ok c =>
      rw [hc, ok_bindE] at h
      by_cases hcc : c = true
      · subst hcc
        rw [if_pos rfl] at h
        cases hx : pyIndex record "attack_noise" with
        | error e => rw [hx] at h; exact absurd h (by simp)
        | ok an =>
            rw [hx, ok_bindE] at h
            cases hg : pyGet an "enabled" .null with
            | error e => rw [hg] at h; exact absurd h (by simp)
            | ok en =>
                rw [hg, ok_bindE] at h
                by_cases htr : pyTruthy en = true
                · rw [if_pos htr] at h
                  cases hs : selectFields an attackNoiseAllowed with
                  | error e =>
                      rw [show (["intensity", "burst_length", "noise_type"] :
                        List String) = attackNoiseAllowed from rfl, hs] at h
                      exact absurd h (by simp)
                  | ok cfg2 =>
                      rw [show (["intensity", "burst_length", "noise_type"] :
                        List String) = attackNoiseAllowed from rfl, hs,
                        ok_bindE] at h
                      by_cases he : cfg2.isEmpty = true
                      · rw [if_pos he] at h
                        exact absurd h (by simp)
                      · rw [if_neg he] at h
                        injection h with h2
                        injection h2 with h3
                        subst h3
                        exact (selectFields_keys hs).2
                · rw [if_neg htr] at h
                  exact absurd h (by simp)
      · rw [if_neg hcc] at h
        exact absurd h (by simp)

theorem findA_append_none {α : Type} {k : String} {fs : List (String × α)}
    (gs : List (String × α)) (h : findA k fs = none) :
    findA k (fs ++ gs) = findA k gs := by
  rw [findA_append, h]

theorem findA_append_some {α : Type} {k : String} {fs : List (String × α)}
    {v : α} (gs : List (String × α)) (h : findA k fs = some v) :
    findA k (fs ++ gs) = some v := by
  rw [findA_append, h]

theorem keys_gpField (gp : List (String × JVal)) :
    (((if gp.isEmpty then [] else [("guitarParams", JVal.obj gp)]) :
      List (String × JVal)).map Prod.fst).Sublist ["guitarParams"] := by
  by_cases h : gp.isEmpty = true <;> simp [h]

theorem findA_gpField_ne {k2 : String} (h : k2 ≠ "guitarParams")
    (gp : List (String × JVal)) :
    findA k2 ((if gp.isEmpty then [] else
      [("guitarParams", JVal.obj gp)]) : List (String × JVal)) = none := by
  by_cases he : gp.isEmpty = true
  · rw [if_pos he]
    rfl
  · rw [if_neg he]
    simp only [findA_cons]
    rw [if_neg (fun hh : ("guitarParams", JVal.obj gp).1 = k2 =>
      h (by simpa using hh.symm))]
    rfl

theorem buildInstrumentConfig_inv {record : JVal}
    {cfg : List (String × JVal)} (h : buildInstrumentConfig record = .ok cfg) :
    EntryInv (.obj cfg) := by
  rw [buildInstrumentConfig] at h
  cases h1 : sectionInto record "envelope"
      ["type", "attack", "hold", "decay", "sustain", "release", "curve"] with
  | error e => rw [h1] at h; exact absurd h (by simp)
  | ok adsr =>
  rw [h1, ok_bindE] at h
  cases h2 : sectionInto record "strings"
      ["material", "num_strings", "tuning", "gauge", "detune_range", "tension"] with
  | error e => rw [h2] at h; exact absurd h (by simp)
  | ok strings =>
  rw [h2, ok_bindE] at h
  cases h3 : sectionInto record "harmonics"
      ["vibe_set", "decay_rate", "sympathetic_resonance"] with
  | error e => rw [h3] at h; exact absurd h (by simp)
  | ok harmonics =>
  rw [h3, ok_bindE] at h
  cases h4 : sectionInto record "filter"
      ["type", "cutoff", "resonance", "envelope_amount", "slope"] with
  | error e => rw [h4] at h; exact absurd h (by simp)
  | ok filt =>
  rw [h4, ok_bindE] at h
  cases h5 : attackNoiseSection record with
  | error e => rw [h5] at h; exact absurd h (by simp)
  | ok an =>
  rw [h5, ok_bindE] at h
  cases h6 : sectionInto record "body_resonance" ["ir_file", "mix"] with
  | error e => rw [h6] at h; exact absurd h (by simp)
  | ok bodyRes =>
  rw [h6, ok_bindE] at h
  cases h7 : sectionInto record "pick"
      ["stiffness", "noiseProbability", "noiseIntensity", "position"] with
  | error e => rw [h7] at h; exact absurd h (by simp)
  | ok pick =>
  rw [h7, ok_bindE] at h
  cases h8 : sectionInto record "vibrato"
      ["freq_range", "vibrato_hz", "depth_cents"] with
  | error e => rw [h8] at h; exact absurd h (by simp)
  | ok vib =>
  rw [h8, ok_bindE] at h
  cases h9 : fxSection record with
  | error e => rw [h9] at h; exact absurd h (by simp)
  | ok fx =>
  rw [h9, ok_bindE] at h
  cases h10 : sectionInto record "sound_characteristics"
      ["timbral", "material", "emotional", "dynamic"] with
  | error e => rw [h10] at h; exact absurd h (by simp)
  | ok sc =>
  rw [h10, ok_bindE] at h
  cases h11 : sectionInto record "topological_metadata"
      ["damping", "spectral_complexity", "manifold_position"] with
  | error e => rw [h11] at h; exact absurd h (by simp)
  | ok topo =>
  rw [h11, ok_bindE] at h
  injection h with hcfg
  set gp := optField "strings" strings ++ optField "harmonics" harmonics
      ++ optField "filter" filt ++ optField "attack_noise" an
      ++ optField "body_resonance" bodyRes ++ optField "pick" pick
      ++ optField "vibrato" vib with hgp
  have hkeys : (cfg.map Prod.fst).Sublist
      ["adsr", "guitarParams", "effects", "soundCharacteristics",
       "topologicalMetadata"] := by
    rw [← hcfg]
    simp only [List.map_append, List.append_assoc]
    show (_ ++ (_ ++ (_ ++ (_ ++ _))) : List String).Sublist
      (["adsr"] ++ (["guitarParams"] ++ (["effects"]
        ++ (["soundCharacteristics"] ++ ["topologicalMetadata"]))))
    refine List.Sublist.append (keys_optField _ _) ?_
    refine List.Sublist.append (keys_gpField _) ?_
    refine List.Sublist.append (keys_optFieldArr _ _) ?_
    exact List.Sublist.append (keys_optField _ _) (keys_optField _ _)
  refine ⟨cfg, rfl, hkeys.nodup (by decide), ?_, ?_⟩
  · exact findA_eq_none (fun hm => absurd (hkeys.subset hm) (by decide))
  · intro gpv hgpv
    rw [← hcfg] at hgpv
    simp only [List.append_assoc] at hgpv
    rw [findA_append_none _ (findA_optField_ne (by decide) _)] at hgpv
    by_cases hge : gp.isEmpty = true
    · have hnone : findA "guitarParams" ((if gp.isEmpty = true then [] else
          [("guitarParams", JVal.obj gp)]) : List (String × JVal)) = none := by
        rw [if_pos hge]
        rfl
      rw [findA_append_none _ hnone,
        findA_append_none _ (findA_optFieldArr_ne (by decide) _),
        findA_append_none _ (findA_optField_ne (by decide) _),
        findA_optField_ne (by decide)] at hgpv
      exact absurd hgpv (by simp)
    · have hsome : findA "guitarParams" ((if gp.isEmpty = true then [] else
          [("guitarParams", JVal.obj gp)]) : List (String × JVal))
            = some (JVal.obj gp) := by
        rw [if_neg hge, findA_cons, if_pos rfl]
      rw [findA_append_some _ hsome] at hgpv
      injection hgpv with hgpv2
      subst hgpv2
      have hgpkeys : (gp.map Prod.fst).Sublist
          ["strings", "harmonics", "filter", "attack_noise",
           "body_resonance", "pick", "vibrato"] := by
        rw [hgp]
        simp only [List.map_append, List.append_assoc]
        show (_ ++ (_ ++ (_ ++ (_ ++ (_ ++ (_ ++ _))))) : List String).Sublist
          (["strings"] ++ (["harmonics"] ++ (["filter"] ++ (["attack_noise"]
            ++ (["body_resonance"] ++ (["pick"] ++ ["vibrato"]))))))
        refine List.Sublist.append (keys_optField _ _) ?_
        refine List.Sublist.append (keys_optField _ _) ?_
        refine List.Sublist.append (keys_optField _ _) ?_
        refine List.Sublist.append (keys_optField _ _) ?_
        refine List.Sublist.append (keys_optField _ _) ?_
        exact List.Sublist.append (keys_optField _ _) (keys_optField _ _)
      refine ⟨gp, rfl, hgpkeys.nodup (by decide), ?_⟩
      intro anv hanv
      rw [hgp] at hanv
      simp only [List.append_assoc] at hanv
      rw [findA_append_none _ (findA_optField_ne (by decide) _),
        findA_append_none _ (findA_optField_ne (by decide) _),
        findA_append_none _ (findA_optField_ne (by decide) _)] at hanv
      cases han : an with
      | none =>
          rw [han] at hanv
          have hnone2 : findA "attack_noise" (optField "attack_noise"
              (none : Option (List (String × JVal)))) = none := rfl
          rw [findA_append_none _ hnone2,
            findA_append_none _ (findA_optField_ne (by decide) _),
            findA_append_none _ (findA_optField_ne (by decide) _),
            findA_optField_ne (by decide)] at hanv
          exact absurd hanv (by simp)
      | some anCfg =>
          rw [han] at hanv
          have hsome2 : findA "attack_noise" (optField "attack_noise"
              (some anCfg)) = some (JVal.obj anCfg) := by
            rw [optField, findA_cons, if_pos rfl]
          rw [findA_append_some _ hsome2] at hanv
          injection hanv with hanv2
          subst hanv2
          refine ⟨anCfg, rfl, ?_⟩
          rw [han] at h5
          exact attackNoiseSection_keys h5

theorem synthesisTypeField_keys {record : JVal} {st : List (String × JVal)}
    (h : synthesisTypeField record = .ok st) :
    (st.map Prod.fst).Sublist ["synthesis_type"] := by
  rw [synthesisTypeField] at h
  cases h0 : pyContains record "synthesis_type" with
  | error e => rw [h0] at h; exact absurd h (by simp)
  | ok has =>
      rw [h0, ok_bindE] at h
      by_cases hb : has = true
      · rw [if_pos hb] at h
        cases hv : pyIndex record "synthesis_type" with
        | error e => rw [hv] at h; exact absurd h (by simp)
        | ok v =>
            rw [hv, ok_bindE] at h
            injection h with h2
            subst h2
            simp
      · rw [if_neg hb] at h
        injection h with h2
        subst h2
        simp

theorem buildGroupConfig_inv {record : JVal} {cfg : List (String × JVal)}
    (h : buildGroupConfig record = .ok cfg) : EntryInv (.obj cfg) := by
  rw [buildGroupConfig] at h
  cases h0 : synthesisTypeField record with
  | error e => rw [h0] at h; exact absurd h (by simp)
  | ok st =>
  rw [h0, ok_bindE] at h
  cases h2 : sectionInto record "oscillator"
      ["types", "mix_ratios", "detune", "modulation_index", "carrier_ratio",
       "harmonics", "morph_rate", "table_index", "pluck_position",
       "grain_density", "grain_size"] with
  | error e => rw [h2] at h; exact absurd h (by simp)
  | ok osc =>
  rw [h2, ok_bindE] at h
  cases h3 : sectionInto record "envelope"
      ["type", "attack", "hold", "decay", "sustain", "release", "delay",
       "curve"] with
  | error e => rw [h3] at h; exact absurd h (by simp)
  | ok env =>
  rw [h3, ok_bindE] at h
  cases h4 : sectionInto record "filter"
      ["type", "cutoff", "resonance", "envelope_amount", "slope"] with
  | error e => rw [h4] at h; exact absurd h (by simp)
  | ok filt =>
  rw [h4, ok_bindE] at h
  cases h5 : fxSection record with
  | error e => rw [h5] at h; exact absurd h (by simp)
  | ok fx =>
  rw [h5, ok_bindE] at h
  cases h6 : sectionInto record "sound_characteristics"
      ["timbral", "material", "emotional", "dynamic"] with
  | error e => rw [h6] at h; exact absurd h (by simp)
  | ok sc =>
  rw [h6, ok_bindE] at h
  cases h7 : sectionInto record "topological_metadata"
      ["damping", "spectral_complexity", "manifold_position"] with
  | error e => rw [h7] at h; exact absurd h (by simp)
  | ok topo =>
  rw [h7, ok_bindE] at h
  injection h with hcfg
  have hkeys : (cfg.map Prod.fst).Sublist
      ["synthesis_type", "oscillator", "envelope", "filter", "fx",
       "sound_characteristics", "topological_metadata"] := by
    rw [← hcfg]
    simp only [List.map_append, List.append_assoc]
    show (_ ++ (_ ++ (_ ++ (_ ++ (_ ++ (_ ++ _))))) : List String).Sublist
      (["synthesis_type"] ++ (["oscillator"] ++ (["envelope"] ++ (["filter"]
        ++ (["fx"] ++ (["sound_characteristics"]
          ++ ["topological_metadata"]))))))
    refine List.Sublist.append (synthesisTypeField_keys h0) ?_
    refine List.Sublist.append (keys_optField _ _) ?_
    refine List.Sublist.append (keys_optField _ _) ?_
    refine List.Sublist.append (keys_optField _ _) ?_
    refine List.Sublist.append (keys_optFieldArr _ _) ?_
    exact List.Sublist.append (keys_optField _ _) (keys_optField _ _)
  refine ⟨cfg, rfl, hkeys.nodup (by decide), ?_, ?_⟩
  · exact findA_eq_none (fun hm => absurd (hkeys.subset hm) (by decide))
  · intro gp hgp
    rw [findA_eq_none
      (fun hm => absurd (hkeys.subset hm) (by decide))] at hgp
    exact absurd hgp (by simp)

theorem store_preserves {Q : JVal → Prop} {acc : List (String × JVal)}
    {k : String} {v : JVal}
    (h : (∀ p ∈ acc, Q p.2) ∧ (acc.map Prod.fst).Nodup) (hv : Q v) :
    (∀ p ∈ dictSet acc k v, Q p.2)
      ∧ ((dictSet acc k v).map Prod.fst).Nodup := by
  refine ⟨?_, nodup_keys_dictSet _ _ h.2⟩
  intro p hp
  rcases mem_dictSet hp with h1 | h1
  · exact h.1 p h1
  · rw [h1]
    exact hv

theorem extract_guitar_inv {g : JVal} {ins : List (String × JVal)}
    (h : extract_guitar_instruments g = .ok ins) :
    (∀ p ∈ ins, EntryInv p.2) ∧ (ins.map Prod.fst).Nodup := by
  rw [extract_guitar_instruments] at h
  cases hc : pyContains g "guitar_types" with
  | error e => rw [hc] at h; exact absurd h (by simp)
  | ok has =>
  rw [hc, ok_bindE] at h
  by_cases hb : (!has) = true
  · rw [if_pos hb] at h
    injection h with h2
    subst h2
    exact ⟨by simp, by simp⟩
  · rw [if_neg hb] at h
    cases hx : pyIndex g "guitar_types" with
    | error e => rw [hx] at h; exact absurd h (by simp)
    | ok gt =>
    rw [hx, ok_bindE] at h
    cases hi : pyItems gt with
    | error e => rw [hi] at h; exact absurd h (by simp)
    | ok typeItems =>
    rw [hi, ok_bindE] at h
    refine foldlM_except_inv
      (fun acc => (∀ p ∈ acc, EntryInv p.2) ∧ (acc.map Prod.fst).Nodup)
      typeItems [] ⟨by simp, by simp⟩ ?_ ins h
    intro b a b2 hmem hP hstep
    cases hcg : pyContains a.2 "groups" with
    | error e => rw [hcg] at hstep; exact absurd hstep (by simp)
    | ok hasG =>
    rw [hcg, ok_bindE] at hstep
    by_cases hbg : (!hasG) = true
    · rw [if_pos hbg] at hstep
      injection hstep with h3
      subst h3
      exact hP
    · rw [if_neg hbg] at hstep
      cases hgr : pyIndex a.2 "groups" with
      | error e => rw [hgr] at hstep; exact absurd hstep (by simp)
      | ok groups =>
      rw [hgr, ok_bindE] at hstep
      cases hrec : pyItems groups with
      | error e => rw [hrec] at hstep; exact absurd hstep (by simp)
      | ok recs =>
      rw [hrec, ok_bindE] at hstep
      refine foldlM_except_inv
        (fun acc => (∀ p ∈ acc, EntryInv p.2) ∧ (acc.map Prod.fst).Nodup)
        recs b hP ?_ b2 hstep
      intro b3 r b4 hmem2 hP2 hstep2
      cases hbc : buildInstrumentConfig r.2 with
      | error e => rw [hbc] at hstep2; exact absurd hstep2 (by simp)
      | ok cfg =>
      rw [hbc, ok_bindE] at hstep2
      by_cases hce : cfg.isEmpty = true
      · rw [if_pos hce] at hstep2
        injection hstep2 with h4
        subst h4
        exact hP2
      · rw [if_neg hce] at hstep2
        injection hstep2 with h4
        subst h4
        exact store_preserves hP2 (buildInstrumentConfig_inv hbc)

theorem extract_group_inv {g : JVal} {grps : List (String × JVal)}
    (h : extract_group_effects g = .ok grps) :
    (∀ p ∈ grps, EntryInv p.2) ∧ (grps.map Prod.fst).Nodup := by
  rw [extract_group_effects] at h
  cases hc : pyContains g "groups" with
  | error e => rw [hc] at h; exact absurd h (by simp)
  | ok has =>
  rw [hc, ok_bindE] at h
  by_cases hb : (!has) = true
  · rw [if_pos hb] at h
    injection h with h2
    subst h2
    exact ⟨by simp, by simp⟩
  · rw [if_neg hb] at h
    cases hx : pyIndex g "groups" with
    | error e => rw [hx] at h; exact absurd h (by simp)
    | ok groups =>
    rw [hx, ok_bindE] at h
    cases hi : pyItems groups with
    | error e => rw [hi] at h; exact absurd h (by simp)
    | ok recs =>
    rw [hi, ok_bindE] at h
    refine foldlM_except_inv
      (fun acc => (∀ p ∈ acc, EntryInv p.2) ∧ (acc.map Prod.fst).Nodup)
      recs [] ⟨by simp, by simp⟩ ?_ grps h
    intro b3 r b4 hmem2 hP2 hstep2
    cases hbc : buildGroupConfig r.2 with
    | error e => rw [hbc] at hstep2; exact absurd hstep2 (by simp)
    | ok cfg =>
    rw [hbc, ok_bindE] at hstep2
    by_cases hce : cfg.isEmpty = true
    · rw [if_pos hce] at hstep2
      injection hstep2 with h4
      subst h4
      exact hP2
    · rw [if_neg hce] at hstep2
      injection hstep2 with h4
      subst h4
      exact store_preserves hP2 (buildGroupConfig_inv hbc)

theorem merged_inv {ins grps : List (String × JVal)}
    (hi : (∀ p ∈ ins, EntryInv p.2) ∧ (ins.map Prod.fst).Nodup)
    (hg : (∀ p ∈ grps, EntryInv p.2) ∧ (grps.map Prod.fst).Nodup) :
    (∀ p ∈ dictUpdate (dictUpdate [] ins) grps, EntryInv p.2)
      ∧ ((dictUpdate (dictUpdate [] ins) grps).map Prod.fst).Nodup := by
  have hbase : ∀ p ∈ dictUpdate ([] : List (String × JVal)) ins,
      EntryInv p.2 := by
    intro p hp
    rcases mem_dictUpdate hp with h | h
    · exact absurd h (List.not_mem_nil p)
    · exact hi.1 p h
  have hnd : ((dictUpdate ([] : List (String × JVal)) ins).map
      Prod.fst).Nodup := nodup_keys_dictUpdate _ _ (by simp)
  refine ⟨?_, nodup_keys_dictUpdate _ _ hnd⟩
  intro p hp
  rcases mem_dictUpdate hp with h | h
  · exact hbase p h
  · exact hg.1 p h

theorem applyOne_ok {smap : List (String × List (String × JVal))}
    {p : String × JVal} {fs : List (String × JVal)} (hfs : p.2 = .obj fs) :
    applyOne smap p = .ok (p.1, structApply smap p.1 p.2) := by
  unfold applyOne structApply
  cases findA p.1 smap with
  | none => rfl
  | some fields =>
      by_cases he : (fields.filter (fun q => !isNullJ q.2)).isEmpty = true
      · simp [he]
      · rw [hfs]
        simp [he]

theorem apply_structure_inv {structd : JVal} {cfg0 cfg1 : List (String × JVal)}
    (hobj : ∀ p ∈ cfg0, ∃ fs, p.2 = JVal.obj fs)
    (h : apply_structure_mappings structd cfg0 = .ok cfg1) :
    (pyContains structd "sections" = .ok false ∧ cfg1 = cfg0) ∨
    ∃ secs smap, pyContains structd "sections" = .ok true ∧
      (pyIndex structd "sections").bind pyIter = .ok secs ∧
      buildStructureMap secs = .ok smap ∧
      cfg1 = cfg0.map (fun p => (p.1, structApply smap p.1 p.2)) := by
  rw [apply_structure_mappings] at h
  cases hc : pyContains structd "sections" with
  | error e => rw [hc] at h; exact absurd h (by simp)
  | ok has =>
  rw [hc, ok_bindE] at h
  by_cases hb : (!has) = true
  · rw [if_pos hb] at h
    injection h with h2
    subst h2
    left
    have hhas : has = false := by
      cases has
      · rfl
      · exact absurd hb (by simp)
    exact ⟨by rw [hhas], rfl⟩
  · have hhas : has = true := by
      cases has
      · exact absurd rfl hb
      · rfl
    rw [if_neg hb] at h
    cases hsv : pyIndex structd "sections" with
    | error e => rw [hsv] at h; exact absurd h (by simp)
    | ok secsV =>
    rw [hsv, ok_bindE] at h
    cases hit : pyIter secsV with
    | error e => rw [hit] at h; exact absurd h (by simp)
    | ok secs =>
    rw [hit, ok_bindE] at h
    cases hsm : buildStructureMap secs with
    | error e => rw [hsm] at h; exact absurd h (by simp)
    | ok smap =>
    rw [hsm, ok_bindE] at h
    have hcfg : cfg1 = cfg0.map (fun p => (p.1, structApply smap p.1 p.2)) := by
      have hmapM : cfg0.mapM (applyOne smap)
          = .ok (cfg0.map (fun p => (p.1, structApply smap p.1 p.2))) :=
        mapM_ok_forall cfg0 (fun p hp => by
          rcases hobj p hp with ⟨fs, hfs⟩
          exact applyOne_ok hfs)
      rw [hmapM] at h
      injection h with h2
      exact h2.symm
    exact Or.inr ⟨secs, smap, by rw [hhas], hit, hsm, hcfg⟩

theorem run_inv {guitar group moods synth structd : JVal}
    {prefs : List String} {r : RunResult}
    (h : generate_clean_config guitar group moods synth structd prefs = .ok r) :
    ∃ ins grps cfg1,
      extract_guitar_instruments guitar = .ok ins ∧
      extract_group_effects group = .ok grps ∧
      apply_structure_mappings structd
        (dictUpdate (dictUpdate [] ins) grps) = .ok cfg1 ∧
      r.config = cleanFields cfg1 := by
  rw [generate_clean_config] at h
  cases h1 : extract_guitar_instruments guitar with
  | error e => rw [h1] at h; exact absurd h (by simp)
  | ok ins =>
  rw [h1, ok_bindE] at h
  cases h2 : extract_group_effects group with
  | error e => rw [h2] at h; exact absurd h (by simp)
  | ok grps =>
  rw [h2, ok_bindE] at h
  cases h3 : apply_structure_mappings structd
      (dictUpdate (dictUpdate [] ins) grps) with
  | error e => rw [h3] at h; exact absurd h (by simp)
  | ok cfg1 =>
  rw [h3, ok_bindE] at h
  cases h4 : calculate_internal_layering cfg1 with
  | error e => rw [h4] at h; exact absurd h (by simp)
  | ok lay =>
  rw [h4, ok_bindE] at h
  cases h5 : calculate_ai_scores moods synth cfg1 prefs with
  | error e => rw [h5] at h; exact absurd h (by simp)
  | ok sco =>
  rw [h5, ok_bindE] at h
  injection h with h6
  subst h6
  exact ⟨ins, grps, cfg1, rfl, rfl, h3, rfl⟩

theorem keys_map_transform (t : String → JVal → JVal) :
    ∀ l : List (String × JVal),
      ((l.map (fun p => (p.1, t p.1 p.2))).map Prod.fst) = l.map Prod.fst := by
  intro l
  induction l with
  | nil => rfl
  | cons q rest ih => simp [ih]

theorem findA_map_transform (k : String) (t : String → JVal → JVal) :
    ∀ l : List (String × JVal),
      findA k (l.map (fun p => (p.1, t p.1 p.2))) = (findA k l).map (t k) := by
  intro l
  induction l with
  | nil => rfl
  | cons q rest ih =>
      by_cases hq : q.1 = k
      · subst hq
        simp [findA_cons]
      · simp [findA_cons, hq, ih]

theorem cleanValOpt_obj_inv {fs : List (String × JVal)} {w : JVal}
    (h : cleanValOpt (.obj fs) = some w) : w = .obj (cleanFields fs) := by
  simp only [cleanValOpt] at h
  by_cases hc : (cleanFields fs).isEmpty = true
  · rw [if_pos hc] at h
    exact absurd h (by simp)
  · rw [if_neg hc] at h
    injection h with h2
    exact h2.symm

theorem jfind_obj (k : String) (fs : List (String × JVal)) :
    jfind k (.obj fs) = findA k fs := rfl

theorem structApply_nomatch {smap : List (String × List (String × JVal))}
    {k : String} (v : JVal) (h : findA k smap = none) :
    structApply smap k v = v := by
  simp [structApply, h]

theorem structApply_empty {smap : List (String × List (String × JVal))}
    {k : String} {fields : List (String × JVal)} (v : JVal)
    (h : findA k smap = some fields)
    (he : (fields.filter (fun q => !isNullJ q.2)).isEmpty = true) :
    structApply smap k v = v := by
  simp [structApply, h, he]

theorem structApply_attach {smap : List (String × List (String × JVal))}
    {k : String} {fields : List (String × JVal)}
    (fs : List (String × JVal)) (h : findA k smap = some fields)
    (he : ¬(fields.filter (fun q => !isNullJ q.2)).isEmpty = true) :
    structApply smap k (.obj fs) = .obj (dictSet fs "structure"
      (.obj (fields.filter (fun q => !isNullJ q.2)))) := by
  simp [structApply, h, he]

theorem runOutput_config {guitar group moods synth structd : JVal}
    {prefs : List String} {out : List (String × JVal)}
    (h : runOutput guitar group moods synth structd prefs = .ok out) :
    ∃ r : RunResult,
      generate_clean_config guitar group moods synth structd prefs = .ok r
        ∧ r.config = out := by
  unfold runOutput at h
  cases hgen : generate_clean_config guitar group moods synth structd prefs with
  | error er => rw [hgen] at h; exact absurd h (by simp [Except.map])
  | ok r =>
      rw [hgen] at h
      refine ⟨r, rfl, ?_⟩
      simpa [Except.map] using h

/-- C2 amended (corrected claim): for every entry of the final configuration,
the entry has a structure section iff its NormalizedKey equals the
normalized group name of some section of the structure catalog and, taking
the last such section, the mapping of its non-null fields among the eight
structure fields survives the final emptiness reduction non-empty; when
present, the structure section equals the emptiness-reduced non-null subset
of that last matching section.  Formally the structure lookup of every
emitted entry equals structureExpected applied to the structure catalog and
the entry key. -/
theorem c2_structure_conditional
    (guitar group moods synth structd : JVal) (prefs : List String)
    (out : List (String × JVal)) (k : String) (e : JVal)
    (hrun : runOutput guitar group moods synth structd prefs = .ok out)
    (hk : findA k out = some e) :
    jfind "structure" e = structureExpected structd k := by
  rcases runOutput_config hrun with ⟨r, hgen, hout⟩
  rcases run_inv hgen with ⟨ins, grps, cfg1, hins, hgrps, happ, hconf⟩
  have hinv0 := merged_inv (extract_guitar_inv hins) (extract_group_inv hgrps)
  have hobj : ∀ p ∈ dictUpdate (dictUpdate [] ins) grps,
      ∃ fs, p.2 = JVal.obj fs := by
    intro p hp
    rcases hinv0.1 p hp with ⟨fs, hfs, _⟩
    exact ⟨fs, hfs⟩
  rw [hout] at hconf
  rw [hconf] at hk
  rcases apply_structure_inv hobj happ with
    ⟨hsecF, hcfg1⟩ | ⟨secs, smap, hsecT, hbind, hsm, hcfg1⟩
  · subst hcfg1
    rw [findA_cleanFields hinv0.2] at hk
    cases hfa : findA k (dictUpdate (dictUpdate [] ins) grps) with
    | none => rw [hfa] at hk; exact absurd hk (by simp)
    | some e1 =>
        rw [hfa] at hk
        simp only [Option.some_bind] at hk
        rcases hinv0.1 _ (findA_some_mem hfa) with ⟨fs1, hfs1, hnd1, hstr1, _⟩
        simp only at hfs1
        rw [hfs1] at hk
        have he : e = .obj (cleanFields fs1) := cleanValOpt_obj_inv hk
        rw [he]
        have hexp : structureExpected structd k = none := by
          unfold structureExpected
          rw [hsecF]
        rw [hexp]
        show findA "structure" (cleanFields fs1) = none
        rw [findA_cleanFields hnd1, hstr1]
        rfl
  · have hnd1 : ((cfg1.map Prod.fst)).Nodup := by
      rw [hcfg1, keys_map_transform]
      exact hinv0.2
    rw [findA_cleanFields hnd1] at hk
    cases hfa : findA k cfg1 with
    | none => rw [hfa] at hk; exact absurd hk (by simp)
    | some e1 =>
        rw [hfa] at hk
        simp only [Option.some_bind] at hk
        rw [hcfg1, findA_map_transform] at hfa
        cases hf0 : findA k (dictUpdate (dictUpdate [] ins) grps) with
        | none => rw [hf0] at hfa; exact absurd hfa (by simp)
        | some e0 =>
            rw [hf0] at hfa
            injection hfa with hfa2
            rcases hinv0.1 _ (findA_some_mem hf0) with
              ⟨fs0, hfs0, hnd0, hstr0, _⟩
            simp only at hfs0
            have hexp : structureExpected structd k =
                match findA k smap with
                | some fields =>
                    let sc := cleanFields
                      (fields.filter (fun q => !isNullJ q.2))
                    if sc.isEmpty then none else some (.obj sc)
                | none => none := by
              unfold structureExpected
              rw [hsecT]
              simp only [hbind, hsm]
            cases hmatch : findA k smap with
            | none =>
                rw [hexp]
                simp only [hmatch]
                have he1 : e1 = .obj fs0 := by
                  rw [← hfa2, hfs0]
                  unfold structApply
                  rw [hmatch]
                rw [he1] at hk
                have he : e = .obj (cleanFields fs0) := cleanValOpt_obj_inv hk
                rw [he]
                show findA "structure" (cleanFields fs0) = none
                rw [findA_cleanFields hnd0, hstr0]
                rfl
            | some fields =>
                rw [hexp]
                simp only [hmatch]
                by_cases hemp :
                    (fields.filter (fun q => !isNullJ q.2)).isEmpty = true
                · have he1 : e1 = .obj fs0 := by
                    rw [← hfa2, hfs0]
                    unfold structApply
                    rw [hmatch]
                    simp only [hemp, if_pos]
                  rw [he1] at hk
                  have he : e = .obj (cleanFields fs0) := cleanValOpt_obj_inv hk
                  rw [he]
                  have hfil :
                      (fields.filter (fun q => !isNullJ q.2)) = [] :=
                    List.isEmpty_iff.1 hemp
                  rw [hfil]
                  show findA "structure" (cleanFields fs0) =
                    if (cleanFields []).isEmpty = true then none
                    else some (.obj (cleanFields []))
                  rw [findA_cleanFields hnd0, hstr0]
                  rfl
                · have he1 : e1 = .obj (dictSet fs0 "structure"
                      (.obj (fields.filter (fun q => !isNullJ q.2)))) := by
                    rw [← hfa2, hfs0]
                    unfold structApply
                    simp only [hmatch]
                    rw [if_neg hemp]
                  rw [he1] at hk
                  have he : e = .obj (cleanFields (dictSet fs0 "structure"
                      (.obj (fields.filter (fun q => !isNullJ q.2))))) :=
                    cleanValOpt_obj_inv hk
                  rw [he]
                  show findA "structure" (cleanFields (dictSet fs0 "structure"
                      (.obj (fields.filter (fun q => !isNullJ q.2))))) = _
                  rw [findA_cleanFields (nodup_keys_dictSet _ _ hnd0),
                    findA_dictSet, if_pos rfl]
                  simp only [Option.some_bind]
                  rw [cleanValOpt]

/-- Witness for C2 at the Intro Pad scenario of the specification. -/
theorem c2_structure_conditional_witness :
    runOutput emptyDoc groupDocIP emptyDoc emptyDoc structDocIP [] = .ok outIP
      ∧ findA "intro_pad" outIP = some entryIP
      ∧ jfind "structure" entryIP = structureExpected structDocIP "intro_pad" :=
  ⟨rfl, rfl, c2_structure_conditional emptyDoc groupDocIP emptyDoc emptyDoc
    structDocIP [] outIP "intro_pad" entryIP rfl rfl⟩

/-- C10: every attack_noise section of every emitted instrument entry,
reached as entry.guitarParams.attack_noise, contains only the keys
intensity, burst_length and noise_type; the gating flag enabled is consumed
by the extractor with a Python truthiness test (not a strict comparison with
boolean true) and is never copied into the section. -/
theorem c10_attack_noise_allowlist
    (guitar group moods synth structd : JVal) (prefs : List String)
    (out : List (String × JVal))
    (hrun : runOutput guitar group moods synth structd prefs = .ok out) :
    attackNoiseOK out = true
    ∧ (∀ record cfg an en, attackNoiseSection record = .ok (some cfg) →
        pyIndex record "attack_noise" = .ok an →
        pyGet an "enabled" .null = .ok en →
        pyTruthy en = true
          ∧ cfg.all (fun q => attackNoiseAllowed.contains q.1) = true) := by
  constructor
  · rcases runOutput_config hrun with ⟨r, hgen, hout⟩
    rcases run_inv hgen with ⟨ins, grps, cfg1, hins, hgrps, happ, hconf⟩
    have hinv0 := merged_inv (extract_guitar_inv hins) (extract_group_inv hgrps)
    have hobj : ∀ p ∈ dictUpdate (dictUpdate [] ins) grps,
        ∃ fs, p.2 = JVal.obj fs := by
      intro p hp
      rcases hinv0.1 p hp with ⟨fs, hfs, _⟩
      exact ⟨fs, hfs⟩
    have hpost : ∀ p ∈ cfg1, ∃ fs1, p.2 = JVal.obj fs1
        ∧ (fs1.map Prod.fst).Nodup
        ∧ ∀ gp, findA "guitarParams" fs1 = some gp → GPInv gp := by
      rcases apply_structure_inv hobj happ with
        ⟨hsecF, hcfg1⟩ | ⟨secs, smap, hsecT, hbind, hsm, hcfg1⟩
      · subst hcfg1
        intro p hp
        rcases hinv0.1 p hp with ⟨fs, hfs, hnd, _, hgp⟩
        exact ⟨fs, hfs, hnd, hgp⟩
      · intro p hp
        rw [hcfg1] at hp
        rcases List.mem_map.1 hp with ⟨q, hq, hqp⟩
        rcases hinv0.1 q hq with ⟨fs0, hfs0, hnd0, hstr0, hgp0⟩
        have hp2 : p.2 = structApply smap q.1 q.2 := by rw [← hqp]
        rw [hp2, hfs0]
        cases hm : findA q.1 smap with
        | none => exact ⟨fs0, structApply_nomatch _ hm, hnd0, hgp0⟩
        | some fields =>
            by_cases hemp :
                ((fields.filter (fun w => !isNullJ w.2)).isEmpty) = true
            · exact ⟨fs0, structApply_empty _ hm hemp, hnd0, hgp0⟩
            · refine ⟨dictSet fs0 "structure"
                (.obj (fields.filter (fun w => !isNullJ w.2))),
                structApply_attach _ hm hemp,
                nodup_keys_dictSet _ _ hnd0, ?_⟩
              intro gp hgp
              rw [findA_dictSet, if_neg (by decide)] at hgp
              exact hgp0 gp hgp
    rw [hout] at hconf
    subst hconf
    rw [attackNoiseOK, List.all_eq_true]
    intro p hp
    rcases mem_cleanFields hp with ⟨v0, hv0mem, hv0⟩
    rcases hpost (p.1, v0) hv0mem with ⟨fs1, hfs1, hnd1, hgp1⟩
    simp only at hfs1
    rw [hfs1] at hv0
    have hp2 : p.2 = .obj (cleanFields fs1) := cleanValOpt_obj_inv hv0
    show attackNoiseEntryOK p.2 = true
    have hjf : jfind "guitarParams" p.2
        = (findA "guitarParams" fs1).bind cleanValOpt := by
      rw [hp2, jfind_obj, findA_cleanFields hnd1]
    cases hfg : findA "guitarParams" fs1 with
    | none => simp [attackNoiseEntryOK, hjf, hfg]
    | some gp0 =>
        rcases hgp1 gp0 hfg with ⟨gfs, hgfs, hndg, han⟩
        subst hgfs
        have hfa2 : findA "attack_noise" (cleanFields gfs)
            = (findA "attack_noise" gfs).bind cleanValOpt :=
          findA_cleanFields hndg
        cases hcg : cleanValOpt (JVal.obj gfs) with
        | none => simp [attackNoiseEntryOK, hjf, hfg, hcg]
        | some w =>
            have hw : w = .obj (cleanFields gfs) := cleanValOpt_obj_inv hcg
            subst hw
            cases hfa : findA "attack_noise" gfs with
            | none => simp [attackNoiseEntryOK, hjf, hfg, hcg, hfa2, hfa]
            | some an0 =>
                rcases han an0 hfa with ⟨afs, hafs, hkeys⟩
                subst hafs
                cases hca : cleanValOpt (JVal.obj afs) with
                | none =>
                    simp [attackNoiseEntryOK, hjf, hfg, hcg, hfa2, hfa, hca]
                | some w2 =>
                    have hw2 : w2 = .obj (cleanFields afs) :=
                      cleanValOpt_obj_inv hca
                    subst hw2
                    simp only [attackNoiseEntryOK, hjf, hfg, hcg, hfa2, hfa,
                      hca, Option.some_bind]
                    rw [List.all_eq_true]
                    intro q hq
                    rcases mem_cleanFields hq with ⟨u, humem, _⟩
                    have hmem : q.1 ∈ attackNoiseAllowed := hkeys (q.1, u) humem
                    simpa using hmem
  · intro record cfg an en hsec hidx hget
    rw [attackNoiseSection] at hsec
    cases hc : pyContains record "attack_noise" with
    | error e => rw [hc] at hsec; exact absurd hsec (by simp)
    | ok c =>
        rw [hc, ok_bindE] at hsec
        by_cases hcc : c = true
        · subst hcc
          rw [if_pos rfl] at hsec
          rw [hidx, ok_bindE] at hsec
          rw [hget, ok_bindE] at hsec
          by_cases htr : pyTruthy en = true
          · refine ⟨htr, ?_⟩
            rw [if_pos htr] at hsec
            cases hs : selectFields an attackNoiseAllowed with
            | error e =>
                rw [show (["intensity", "burst_length", "noise_type"] :
                  List String) = attackNoiseAllowed from rfl, hs] at hsec
                exact absurd hsec (by simp)
            | ok cfg2 =>
                rw [show (["intensity", "burst_length", "noise_type"] :
                  List String) = attackNoiseAllowed from rfl, hs,
                  ok_bindE] at hsec
                by_cases he : cfg2.isEmpty = true
                · rw [if_pos he] at hsec
                  exact absurd hsec (by simp)
                · rw [if_neg he] at hsec
                  injection hsec with h2
                  injection h2 with h3
                  subst h3
                  rw [List.all_eq_true]
                  intro q hq
                  have := (selectFields_keys hs).2 q hq
                  simpa using this
          · rw [if_neg htr] at hsec
            exact absurd hsec (by simp)
        · rw [if_neg hcc] at hsec
          exact absurd hsec (by simp)

theorem allKeysFields_append (fs gs : List (String × JVal)) :
    allKeysFields (fs ++ gs) = allKeysFields fs ++ allKeysFields gs := by
  induction fs with
  | nil => rfl
  | cons p rest ih =>
      obtain ⟨k, v⟩ := p
      simp [allKeysFields, ih]

theorem allKeysElems_append (xs ys : List JVal) :
    allKeysElems (xs ++ ys) = allKeysElems xs ++ allKeysElems ys := by
  induction xs with
  | nil => rfl
  | cons v rest ih => simp [allKeysElems, ih]

theorem allKeys_of_mem {fs : List (String × JVal)} {k : String} {v : JVal}
    (h : (k, v) ∈ fs) :
    k ∈ allKeysFields fs ∧ allKeysV v ⊆ allKeysFields fs := by
  induction fs with
  | nil => exact absurd h (by simp)
  | cons p rest ih =>
      obtain ⟨k1, v1⟩ := p
      rcases List.mem_cons.1 h with h1 | h1
      · injection h1 with h2 h3
        subst h2
        subst h3
        constructor
        · simp [allKeysFields]
        · intro x hx
          simp [allKeysFields, hx]
      · rcases ih h1 with ⟨hk, hv⟩
        constructor
        · simp [allKeysFields, hk]
        · intro x hx
          simp [allKeysFields, hv hx]

theorem allKeys_of_elem {xs : List JVal} {v : JVal} (h : v ∈ xs) :
    allKeysV v ⊆ allKeysElems xs := by
  induction xs with
  | nil => exact absurd h (by simp)
  | cons w rest ih =>
      rcases List.mem_cons.1 h with h1 | h1
      · subst h1
        intro x hx
        simp [allKeysElems, hx]
      · intro x hx
        simp [allKeysElems, ih h1 hx]

theorem pyIndex_subkeys {v : JVal} {k : String} {x : JVal}
    (h : pyIndex v k = .ok x) : allKeysV x ⊆ allKeysV v := by
  cases v with
  | obj fs =>
      rw [pyIndex] at h
      cases hf : findA k fs with
      | none => rw [hf] at h; exact absurd h (by simp)
      | some y =>
          rw [hf] at h
          injection h with h2
          subst h2
          exact (allKeys_of_mem (findA_some_mem hf)).2
  | null => exact absurd h (by simp [pyIndex])
  | boolv b => exact absurd h (by simp [pyIndex])
  | num q => exact absurd h (by simp [pyIndex])
  | str s => exact absurd h (by simp [pyIndex])
  | arr xs => exact absurd h (by simp [pyIndex])

theorem pyGet_subkeys {v : JVal} {k : String} {d : JVal} {x : JVal}
    (h : pyGet v k d = .ok x) : allKeysV x ⊆ allKeysV v ++ allKeysV d := by
  cases v with
  | obj fs =>
      rw [pyGet] at h
      injection h with h2
      cases hf : findA k fs with
      | none =>
          rw [hf] at h2
          simp only [Option.getD] at h2
          subst h2
          intro y hy
          simp [hy]
      | some y =>
          rw [hf] at h2
          simp only [Option.getD] at h2
          subst h2
          intro z hz
          have := (allKeys_of_mem (findA_some_mem hf)).2 hz
          simp [allKeysV, this]
  | null => exact absurd h (by simp [pyGet])
  | boolv b => exact absurd h (by simp [pyGet])
  | num q => exact absurd h (by simp [pyGet])
  | str s => exact absurd h (by simp [pyGet])
  | arr xs => exact absurd h (by simp [pyGet])

theorem pyIter_subkeys {v : JVal} {xs : List JVal}
    (h : pyIter v = .ok xs) : ∀ x ∈ xs, allKeysV x ⊆ allKeysV v := by
  cases v with
  | arr ys =>
      rw [pyIter] at h
      injection h with h2
      subst h2
      intro x hx
      exact allKeys_of_elem hx
  | str s =>
      rw [pyIter] at h
      injection h with h2
      subst h2
      intro x hx
      rcases List.mem_map.1 hx with ⟨c, _, hc⟩
      rw [← hc]
      intro y hy
      exact absurd hy (by simp [allKeysV])
  | obj fs =>
      rw [pyIter] at h
      injection h with h2
      subst h2
      intro x hx
      rcases List.mem_map.1 hx with ⟨p, _, hp⟩
      rw [← hp]
      intro y hy
      exact absurd hy (by simp [allKeysV])
  | null => exact absurd h (by simp [pyIter])
  | boolv b => exact absurd h (by simp [pyIter])
  | num q => exact absurd h (by simp [pyIter])

theorem pyItems_inv {v : JVal} {fs : List (String × JVal)}
    (h : pyItems v = .ok fs) : v = .obj fs := by
  cases v with
  | obj gs =>
      rw [pyItems] at h
      injection h with h2
      rw [h2]
  | null => exact absurd h (by simp [pyItems])
  | boolv b => exact absurd h (by simp [pyItems])
  | num q => exact absurd h (by simp [pyItems])
  | str s => exact absurd h (by simp [pyItems])
  | arr xs => exact absurd h (by simp [pyItems])

theorem selectFields_subkeys {v : JVal} :
    ∀ {allow : List String} {cfg}, selectFields v allow = .ok cfg →
      allKeysFields cfg ⊆ allow ++ allKeysV v := by
  intro allow
  induction allow with
  | nil =>
      intro cfg h
      cases h
      intro x hx
      exact absurd hx (by simp [allKeysFields])
  | cons a rest ih =>
      intro cfg h
      rw [selectFields] at h
      cases hc : pyContains v a with
      | error e => rw [hc] at h; exact absurd h (by simp)
      | ok c =>
          rw [hc, ok_bindE] at h
          by_cases hcc : c = true
          · subst hcc
            rw [if_pos rfl] at h
            cases hx : pyIndex v a with
            | error e => rw [hx] at h; exact absurd h (by simp)
            | ok x =>
                rw [hx, ok_bindE] at h
                cases ht : selectFields v rest with
                | error e => rw [ht] at h; exact absurd h (by simp)
                | ok tail =>
                    rw [ht, ok_bindE] at h
                    cases h
                    intro y hy
                    simp only [allKeysFields] at hy
                    rcases List.mem_cons.1 hy with h1 | h1
                    · simp [h1]
                    · rcases List.mem_append.1 h1 with h2 | h2
                      · have := pyIndex_subkeys hx h2
                        simp [this]
                      · have := ih ht h2
                        rcases List.mem_append.1 this with h3 | h3
                        · simp [h3]
                        · simp [h3]
          · rw [if_neg hcc] at h
            intro y hy
            have := ih h hy
            rcases List.mem_append.1 this with h3 | h3
            · simp [h3]
            · simp [h3]

theorem sectionInto_subkeys {record : JVal} {srcKey : String}
    {allow : List String} {cfg : List (String × JVal)}
    (h : sectionInto record srcKey allow = .ok (some cfg)) :
    allKeysFields cfg ⊆ allow ++ allKeysV record := by
  rw [sectionInto] at h
  cases hc : pyContains record srcKey with
  | error e => rw [hc] at h; exact absurd h (by simp)
  | ok c =>
      rw [hc, ok_bindE] at h
      by_cases hcc : c = true
      · subst hcc
        rw [if_pos rfl] at h
        cases hx : pyIndex record srcKey with
        | error e => rw [hx] at h; exact absurd h (by simp)
        | ok sec =>
            rw [hx, ok_bindE] at h
            cases hs : selectFields sec allow with
            | error e => rw [hs] at h; exact absurd h (by simp)
            | ok cfg2 =>
                rw [hs, ok_bindE] at h
                by_cases he : cfg2.isEmpty = true
                · rw [if_pos he] at h
                  exact absurd h (by simp)
                · rw [if_neg he] at h
                  injection h with h2
                  injection h2 with h3
                  subst h3
                  intro y hy
                  have := selectFields_subkeys hs hy
                  rcases List.mem_append.1 this with h3 | h3
                  · simp [h3]
                  · have := pyIndex_subkeys hx h3
                    simp [this]
      · rw [if_neg hcc] at h
        injection h with h2
        exact absurd h2 (by simp)

theorem attackNoiseSection_subkeys {record : JVal}
    {cfg : List (String × JVal)}
    (h : attackNoiseSection record = .ok (some cfg)) :
    allKeysFields cfg ⊆ attackNoiseAllowed ++ allKeysV record := by
  rw [attackNoiseSection] at h
  cases hc : pyContains record "attack_noise" with
  | error e => rw [hc] at h; exact absurd h (by simp)
  | ok c =>
      rw [hc, ok_bindE] at h
      by_cases hcc : c = true
      · subst hcc
        rw [if_pos rfl] at h
        cases hx : pyIndex record "attack_noise" with
        | error e => rw [hx] at h; exact absurd h (by simp)
        | ok an =>
            rw [hx, ok_bindE] at h
            cases hg : pyGet an "enabled" .null with
            | error e => rw [hg] at h; exact absurd h (by simp)
            | ok en =>
                rw [hg, ok_bindE] at h
                by_cases htr : pyTruthy en = true
                · rw [if_pos htr] at h
                  cases hs : selectFields an attackNoiseAllowed with
                  | error e =>
                      rw [show (["intensity", "burst_length", "noise_type"] :
                        List String) = attackNoiseAllowed from rfl, hs] at h
                      exact absurd h (by simp)
                  | ok cfg2 =>
                      rw [show (["intensity", "burst_length", "noise_type"] :
                        List String) = attackNoiseAllowed from rfl, hs,
                        ok_bindE] at h
                      by_cases he : cfg2.isEmpty = true
                      · rw [if_pos he] at h
                        exact absurd h (by simp)
                      · rw [if_neg he] at h
                        injection h with h2
                        injection h2 with h3
                        subst h3
                        intro y hy
                        have := selectFields_subkeys hs hy
                        rcases List.mem_append.1 this with h3 | h3
                        · simp [h3]
                        · have := pyIndex_subkeys hx h3
                          simp [this]
                · rw [if_neg htr] at h
                  injection h with h2
                  exact absurd h2 (by simp)
      · rw [if_neg hcc] at h
        injection h with h2
        exact absurd h2 (by simp)

theorem allKeysElems_subset_of_forall {xs : List JVal} {B : List String}
    (h : ∀ x ∈ xs, allKeysV x ⊆ B) : allKeysElems xs ⊆ B := by
  induction xs with
  | nil => simp [allKeysElems]
  | cons v rest ih =>
      intro y hy
      simp only [allKeysElems] at hy
      rcases List.mem_append.1 hy with h1 | h1
      · exact h v (by simp) h1
      · exact ih (fun x hx => h x (by simp [hx])) h1

theorem allKeysElems_filter (p : JVal → Bool) (xs : List JVal) :
    allKeysElems (xs.filter p) ⊆ allKeysElems xs := by
  induction xs with
  | nil => simp [allKeysElems]
  | cons v rest ih =>
      by_cases hp : p v = true
      · rw [List.filter_cons_of_pos hp]
        simp only [allKeysElems]
        intro x hx
        rcases List.mem_append.1 hx with h1 | h1
        · simp [allKeysElems, h1]
        · simp [allKeysElems, ih h1]
      · rw [List.filter_cons_of_neg hp]
        intro x hx
        simp [allKeysElems, ih hx]

theorem fxSection_subkeys {record : JVal} {es : List JVal}
    (h : fxSection record = .ok (some es)) :
    allKeysElems es ⊆ allKeysV record := by
  rw [fxSection] at h
  cases hc : pyContains record "fx" with
  | error e => rw [hc] at h; exact absurd h (by simp)
  | ok c =>
      rw [hc, ok_bindE] at h
      by_cases hcc : c = true
      · subst hcc
        rw [if_pos rfl] at h
        cases hx : pyIndex record "fx" with
        | error e => rw [hx] at h; exact absurd h (by simp)
        | ok v =>
            rw [hx, ok_bindE] at h
            by_cases htr : pyTruthy v = true
            · rw [if_pos htr] at h
              cases hi : pyIter v with
              | error e => rw [hi] at h; exact absurd h (by simp)
              | ok items =>
                  rw [hi, ok_bindE] at h
                  by_cases he : (items.filter isObjNE).isEmpty = true
                  · rw [if_pos he] at h
                    exact absurd h (by simp)
                  · rw [if_neg he] at h
                    injection h with h2
                    injection h2 with h3
                    subst h3
                    intro y hy
                    have h4 := allKeysElems_filter isObjNE items hy
                    have h5 := allKeysElems_subset_of_forall
                      (pyIter_subkeys hi) h4
                    exact pyIndex_subkeys hx h5
            · rw [if_neg htr] at h
              injection h with h2
              exact absurd h2 (by simp)
      · rw [if_neg hcc] at h
        injection h with h2
        exact absurd h2 (by simp)

theorem allKeysFields_optField {k : String}
    {o : Option (List (String × JVal))} :
    allKeysFields (optField k o) ⊆
      k :: (match o with | some cfg => allKeysFields cfg | none => []) := by
  cases o with
  | none => simp [optField, allKeysFields]
  | some cfg =>
      intro x hx
      simp only [optField, allKeysFields, allKeysV] at hx
      simpa [List.mem_cons] using hx

theorem allKeysFields_optFieldArr {k : String} {o : Option (List JVal)} :
    allKeysFields (optFieldArr k o) ⊆
      k :: (match o with | some es => allKeysElems es | none => []) := by
  cases o with
  | none => simp [optFieldArr, allKeysFields]
  | some es =>
      intro x hx
      simp only [optFieldArr, allKeysFields, allKeysV] at hx
      simpa [List.mem_cons] using hx

theorem buildInstrumentConfig_subkeys {record : JVal}
    {cfg : List (String × JVal)} (h : buildInstrumentConfig record = .ok cfg) :
    allKeysFields cfg ⊆ emittedFixedKeys ++ allKeysV record := by
  rw [buildInstrumentConfig] at h
  cases h1 : sectionInto record "envelope"
      ["type", "attack", "hold", "decay", "sustain", "release", "curve"] with
  | error e => rw [h1] at h; exact absurd h (by simp)
  | ok adsr =>
  rw [h1, ok_bindE] at h
  cases h2 : sectionInto record "strings"
      ["material", "num_strings", "tuning", "gauge", "detune_range", "tension"] with
  | error e => rw [h2] at h; exact absurd h (by simp)
  | ok strings =>
  rw [h2, ok_bindE] at h
  cases h3 : sectionInto record "harmonics"
      ["vibe_set", "decay_rate", "sympathetic_resonance"] with
  | error e => rw [h3] at h; exact absurd h (by simp)
  | ok harmonics =>
  rw [h3, ok_bindE] at h
  cases h4 : sectionInto record "filter"
      ["type", "cutoff", "resonance", "envelope_amount", "slope"] with
  | error e => rw [h4] at h; exact absurd h (by simp)
  | ok filt =>
  rw [h4, ok_bindE] at h
  cases h5 : attackNoiseSection record with
  | error e => rw [h5] at h; exact absurd h (by simp)
  | ok an =>
  rw [h5, ok_bindE] at h
  cases h6 : sectionInto record "body_resonance" ["ir_file", "mix"] with
  | error e => rw [h6] at h; exact absurd h (by simp)
  | ok bodyRes =>
  rw [h6, ok_bindE] at h
  cases h7 : sectionInto record "pick"
      ["stiffness", "noiseProbability", "noiseIntensity", "position"] with
  | error e => rw [h7] at h; exact absurd h (by simp)
  | ok pick =>
  rw [h7, ok_bindE] at h
  cases h8 : sectionInto record "vibrato"
      ["freq_range", "vibrato_hz", "depth_cents"] with
  | error e => rw [h8] at h; exact absurd h (by simp)
  | ok vib =>
  rw [h8, ok_bindE] at h
  cases h9 : fxSection record with
  | error e => rw [h9] at h; exact absurd h (by simp)
  | ok fx =>
  rw [h9, ok_bindE] at h
  cases h10 : sectionInto record "sound_characteristics"
      ["timbral", "material", "emotional", "dynamic"] with
  | error e => rw [h10] at h; exact absurd h (by simp)
  | ok sc =>
  rw [h10, ok_bindE] at h
  cases h11 : sectionInto record "topological_metadata"
      ["damping", "spectral_complexity", "manifold_position"] with
  | error e => rw [h11] at h; exact absurd h (by simp)
  | ok topo =>
  rw [h11, ok_bindE] at h
  injection h with hcfg
  rw [← hcfg]
  have hsec : ∀ (srcKey : String) (allow : List String)
      (o : Option (List (String × JVal))),
      sectionInto record srcKey allow = .ok o →
      allow ⊆ emittedFixedKeys →
      ∀ (k2 : String), k2 ∈ emittedFixedKeys →
      allKeysFields (optField k2 o) ⊆ emittedFixedKeys ++ allKeysV record := by
    intro srcKey allow o ho hallow k2 hk2 x hx
    have := allKeysFields_optField hx
    rcases List.mem_cons.1 this with h1 | h1
    · subst h1
      simp [hk2]
    · cases o with
      | none => exact absurd h1 (by simp at h1)
      | some cfg2 =>
          have h2 := sectionInto_subkeys ho h1
          rcases List.mem_append.1 h2 with h3 | h3
          · simp [hallow h3]
          · simp [h3]
  intro x hx
  simp only [allKeysFields_append, List.mem_append] at hx
  rcases hx with ((((hx | hx) | hx) | hx) | hx)
  · exact hsec "envelope" _ adsr h1 (by decide) "adsr" (by decide) hx
  · by_cases hge : (optField "strings" strings ++ optField "harmonics" harmonics
        ++ optField "filter" filt ++ optField "attack_noise" an
        ++ optField "body_resonance" bodyRes ++ optField "pick" pick
        ++ optField "vibrato" vib).isEmpty = true
    · rw [if_pos hge] at hx
      exact absurd hx (by simp [allKeysFields] at hx ⊢)
    · rw [if_neg hge] at hx
      simp only [allKeysFields, allKeysV, List.append_nil] at hx
      rcases List.mem_cons.1 hx with h1 | h1
      · subst h1
        simp [show ("guitarParams" : String) ∈ emittedFixedKeys by decide]
      · rw [show allKeysFields (optField "strings" strings
          ++ optField "harmonics" harmonics ++ optField "filter" filt
          ++ optField "attack_noise" an ++ optField "body_resonance" bodyRes
          ++ optField "pick" pick ++ optField "vibrato" vib) = _ from rfl] at h1
        simp only [allKeysFields_append, List.mem_append, List.append_nil] at h1
        rcases h1 with ((((((h1 | h1) | h1) | h1) | h1) | h1) | h1)
        · exact hsec "strings" _ strings h2 (by decide) "strings" (by decide) h1
        · exact hsec "harmonics" _ harmonics h3 (by decide) "harmonics" (by decide) h1
        · exact hsec "filter" _ filt h4 (by decide) "filter" (by decide) h1
        · have := allKeysFields_optField h1
          rcases List.mem_cons.1 this with h2a | h2a
          · subst h2a
            simp [show ("attack_noise" : String) ∈ emittedFixedKeys by decide]
          · cases han : an with
            | none => rw [han] at h2a; exact absurd h2a (by simp at h2a)
            | some anCfg =>
                rw [han] at h2a
                rw [han] at h5
                have h2b := attackNoiseSection_subkeys h5 h2a
                rcases List.mem_append.1 h2b with h3a | h3a
                · have : x ∈ emittedFixedKeys := by
                    have h4a : attackNoiseAllowed ⊆ emittedFixedKeys := by decide
                    exact h4a h3a
                  simp [this]
                · simp [h3a]
        · exact hsec "body_resonance" _ bodyRes h6 (by decide) "body_resonance" (by decide) h1
        · exact hsec "pick" _ pick h7 (by decide) "pick" (by decide) h1
        · exact hsec "vibrato" _ vib h8 (by decide) "vibrato" (by decide) h1
  · have := allKeysFields_optFieldArr hx
    rcases List.mem_cons.1 this with h1 | h1
    · subst h1
      simp [show ("effects" : String) ∈ emittedFixedKeys by decide]
    · cases hfx : fx with
      | none => rw [hfx] at h1; exact absurd h1 (by simp at h1)
      | some es =>
          rw [hfx] at h1
          rw [hfx] at h9
          have := fxSection_subkeys h9 h1
          simp [this]
  · exact hsec "sound_characteristics" _ sc h10 (by decide)
      "soundCharacteristics" (by decide) hx
  · exact hsec "topological_metadata" _ topo h11 (by decide)
      "topologicalMetadata" (by decide) hx

theorem synthesisTypeField_subkeys {record : JVal}
    {st : List (String × JVal)} (h : synthesisTypeField record = .ok st) :
    allKeysFields st ⊆ "synthesis_type" :: allKeysV record := by
  rw [synthesisTypeField] at h
  cases h0 : pyContains record "synthesis_type" with
  | error e => rw [h0] at h; exact absurd h (by simp)
  | ok has =>
      rw [h0, ok_bindE] at h
      by_cases hb : has = true
      · rw [if_pos hb] at h
        cases hv : pyIndex record "synthesis_type" with
        | error e => rw [hv] at h; exact absurd h (by simp)
        | ok v =>
            rw [hv, ok_bindE] at h
            injection h with h2
            subst h2
            intro x hx
            simp only [allKeysFields, List.append_nil] at hx
            rcases List.mem_cons.1 hx with h1 | h1
            · simp [h1]
            · simp [List.mem_cons, pyIndex_subkeys hv h1]
      · rw [if_neg hb] at h
        injection h with h2
        subst h2
        simp [allKeysFields]

theorem buildGroupConfig_subkeys {record : JVal}
    {cfg : List (String × JVal)} (h : buildGroupConfig record = .ok cfg) :
    allKeysFields cfg ⊆ emittedFixedKeys ++ allKeysV record := by
  rw [buildGroupConfig] at h
  cases h0 : synthesisTypeField record with
  | error e => rw [h0] at h; exact absurd h (by simp)
  | ok st =>
  rw [h0, ok_bindE] at h
  cases h2 : sectionInto record "oscillator"
      ["types", "mix_ratios", "detune", "modulation_index", "carrier_ratio",
       "harmonics", "morph_rate", "table_index", "pluck_position",
       "grain_density", "grain_size"] with
  | error e => rw [h2] at h; exact absurd h (by simp)
  | ok osc =>
  rw [h2, ok_bindE] at h
  cases h3 : sectionInto record "envelope"
      ["type", "attack", "hold", "decay", "sustain", "release", "delay",
       "curve"] with
  | error e => rw [h3] at h; exact absurd h (by simp)
  | ok env =>
  rw [h3, ok_bindE] at h
  cases h4 : sectionInto record "filter"
      ["type", "cutoff", "resonance", "envelope_amount", "slope"] with
  | error e => rw [h4] at h; exact absurd h (by simp)
  | ok filt =>
  rw [h4, ok_bindE] at h
  cases h5 : fxSection record with
  | error e => rw [h5] at h; exact absurd h (by simp)
  | ok fx =>
  rw [h5, ok_bindE] at h
  cases h6 : sectionInto record "sound_characteristics"
      ["timbral", "material", "emotional", "dynamic"] with
  | error e => rw [h6] at h; exact absurd h (by simp)
  | ok sc =>
  rw [h6, ok_bindE] at h
  cases h7 : sectionInto record "topological_metadata"
      ["damping", "spectral_complexity", "manifold_position"] with
  | error e => rw [h7] at h; exact absurd h (by simp)
  | ok topo =>
  rw [h7, ok_bindE] at h
  injection h with hcfg
  rw [← hcfg]
  have hsec : ∀ (srcKey : String) (allow : List String)
      (o : Option (List (String × JVal))),
      sectionInto record srcKey allow = .ok o →
      allow ⊆ emittedFixedKeys →
      ∀ (k2 : String), k2 ∈ emittedFixedKeys →
      allKeysFields (optField k2 o) ⊆ emittedFixedKeys ++ allKeysV record := by
    intro srcKey allow o ho hallow k2 hk2 x hx
    have := allKeysFields_optField hx
    rcases List.mem_cons.1 this with h1 | h1
    · subst h1
      simp [hk2]
    · cases o with
      | none => exact absurd h1 (by simp at h1)
      | some cfg2 =>
          have hsub := sectionInto_subkeys ho h1
          rcases List.mem_append.1 hsub with h3 | h3
          · simp [hallow h3]
          · simp [h3]
  intro x hx
  simp only [allKeysFields_append, List.mem_append] at hx
  rcases hx with ((((((hx | hx) | hx) | hx) | hx) | hx) | hx)
  · have := synthesisTypeField_subkeys h0 hx
    rcases List.mem_cons.1 this with h1 | h1
    · subst h1
      simp [show ("synthesis_type" : String) ∈ emittedFixedKeys by decide]
    · simp [h1]
  · exact hsec "oscillator" _ osc h2 (by decide) "oscillator" (by decide) hx
  · exact hsec "envelope" _ env h3 (by decide) "envelope" (by decide) hx
  · exact hsec "filter" _ filt h4 (by decide) "filter" (by decide) hx
  · have := allKeysFields_optFieldArr hx
    rcases List.mem_cons.1 this with h1 | h1
    · subst h1
      simp [show ("fx" : String) ∈ emittedFixedKeys by decide]
    · cases hfx : fx with
      | none => rw [hfx] at h1; exact absurd h1 (by simp at h1)
      | some es =>
          rw [hfx] at h1
          rw [hfx] at h5
          have := fxSection_subkeys h5 h1
          simp [this]
  · exact hsec "sound_characteristics" _ sc h6 (by decide)
      "sound_characteristics" (by decide) hx
  · exact hsec "topological_metadata" _ topo h7 (by decide)
      "topological_metadata" (by decide) hx

theorem allKeysFields_setMap (k : String) (v : JVal) :
    ∀ fs : List (String × JVal),
      allKeysFields (fs.map (fun p => if p.1 == k then (k, v) else p)) ⊆
        (k :: allKeysV v) ++ allKeysFields fs := by
  intro fs
  induction fs with
  | nil => simp [allKeysFields]
  | cons q rest ih =>
      obtain ⟨k1, v1⟩ := q
      by_cases hq : k1 = k
      · intro x hx
        rw [List.map_cons,
          if_pos (show (((k1, v1).1 == k) = true) by simpa using hq)] at hx
        simp only [allKeysFields] at hx
        rcases List.mem_cons.1 hx with h1 | h1
        · simp [h1]
        · rcases List.mem_append.1 h1 with h2 | h2
          · simp [h2]
          · have h3 := ih h2
            rcases List.mem_cons.1 h3 with h4 | h4
            · simp [h4]
            · rcases List.mem_append.1 h4 with h5 | h5
              · simp [h5]
              · simp [allKeysFields, List.mem_append, h5]
      · intro x hx
        rw [List.map_cons,
          if_neg (show ¬(((k1, v1).1 == k) = true) by simpa using hq)] at hx
        simp only [allKeysFields] at hx
        rcases List.mem_cons.1 hx with h1 | h1
        · simp [allKeysFields, h1]
        · rcases List.mem_append.1 h1 with h2 | h2
          · simp [allKeysFields, List.mem_append, h2]
          · have h3 := ih h2
            rcases List.mem_cons.1 h3 with h4 | h4
            · simp [h4]
            · rcases List.mem_append.1 h4 with h5 | h5
              · simp [h5]
              · simp [allKeysFields, List.mem_append, h5]

theorem allKeysFields_dictSet (fs : List (String × JVal)) (k : String)
    (v : JVal) :
    allKeysFields (dictSet fs k v) ⊆
      (k :: allKeysV v) ++ allKeysFields fs := by
  unfold dictSet
  by_cases ha : fs.any (fun p => p.1 == k)
  · rw [if_pos ha]
    exact allKeysFields_setMap k v fs
  · rw [if_neg ha]
    rw [allKeysFields_append]
    intro x hx
    rcases List.mem_append.1 hx with h1 | h1
    · simp [h1]
    · simp only [allKeysFields, List.append_nil] at h1
      rcases List.mem_cons.1 h1 with h2 | h2
      · simp [h2]
      · simp [h2]

theorem allKeysFields_dictUpdate :
    ∀ (upd base : List (String × JVal)),
      allKeysFields (dictUpdate base upd) ⊆
        allKeysFields base ++ allKeysFields upd := by
  intro upd
  induction upd with
  | nil => intro base; simp [dictUpdate]
  | cons q rest ih =>
      intro base
      obtain ⟨k1, v1⟩ := q
      unfold dictUpdate
      rw [List.foldl_cons]
      intro x hx
      have h1 := ih (dictSet base k1 v1) hx
      rcases List.mem_append.1 h1 with h2 | h2
      · have h3 := allKeysFields_dictSet base k1 v1 h2
        rcases List.mem_append.1 h3 with h4 | h4
        · rcases List.mem_cons.1 h4 with h5 | h5
          · simp [allKeysFields, h5]
          · simp [allKeysFields, h5]
        · simp [h4]
      · simp [allKeysFields, List.mem_append, h2]

theorem allKeysFields_filter (p : String × JVal → Bool)
    (fs : List (String × JVal)) :
    allKeysFields (fs.filter p) ⊆ allKeysFields fs := by
  induction fs with
  | nil => simp [allKeysFields]
  | cons q rest ih =>
      obtain ⟨k1, v1⟩ := q
      by_cases hp : p (k1, v1) = true
      · rw [List.filter_cons_of_pos hp]
        intro x hx
        simp only [allKeysFields] at hx
        rcases List.mem_cons.1 hx with h1 | h1
        · simp [allKeysFields, h1]
        · rcases List.mem_append.1 h1 with h2 | h2
          · simp [allKeysFields, List.mem_append, h2]
          · simp [allKeysFields, List.mem_append, ih h2]
      · rw [List.filter_cons_of_neg hp]
        intro x hx
        simp [allKeysFields, List.mem_append, ih hx]

mutual

theorem cleanValOpt_subkeys : ∀ v w, cleanValOpt v = some w →
    allKeysV w ⊆ allKeysV v
  | .null, w => by simp [cleanValOpt]
  | .boolv b, w => by
      simp only [cleanValOpt, Option.some.injEq]
      rintro rfl
      exact fun x hx => hx
  | .num q, w => by
      simp only [cleanValOpt, Option.some.injEq]
      rintro rfl
      exact fun x hx => hx
  | .str s, w => by
      by_cases h : strTrimEmpty s = true
      · simp [cleanValOpt, h]
      · simp only [cleanValOpt, if_neg h, Option.some.injEq]
        rintro rfl
        exact fun x hx => hx
  | .arr xs, w => by
      by_cases he : xs.isEmpty = true
      · simp [cleanValOpt, he]
      · by_cases hc : (cleanElems xs).isEmpty = true
        · simp [cleanValOpt, he, hc]
        · simp only [cleanValOpt, if_neg he, if_neg hc, Option.some.injEq]
          rintro rfl
          exact cleanElems_subkeys xs
  | .obj fs, w => by
      by_cases hc : (cleanFields fs).isEmpty = true
      · simp [cleanValOpt, hc]
      · simp only [cleanValOpt, if_neg hc, Option.some.injEq]
        rintro rfl
        exact cleanFields_subkeys fs

theorem cleanFields_subkeys : ∀ fs,
    allKeysFields (cleanFields fs) ⊆ allKeysFields fs
  | [] => by simp [cleanFields]
  | (k, v) :: rest => by
      cases h : cleanValOpt v with
      | none =>
          rw [cleanFields, h]
          intro x hx
          simp [allKeysFields, List.mem_append, cleanFields_subkeys rest hx]
      | some w =>
          rw [cleanFields, h]
          intro x hx
          simp only [allKeysFields] at hx
          rcases List.mem_cons.1 hx with h1 | h1
          · simp [allKeysFields, h1]
          · rcases List.mem_append.1 h1 with h2 | h2
            · simp [allKeysFields, List.mem_append,
                cleanValOpt_subkeys v w h h2]
            · simp [allKeysFields, List.mem_append,
                cleanFields_subkeys rest h2]

theorem cleanElems_subkeys : ∀ xs,
    allKeysElems (cleanElems xs) ⊆ allKeysElems xs
  | [] => by simp [cleanElems]
  | .null :: rest => by
      have hE : cleanElems (JVal.null :: rest) = cleanElems rest := by
        simp [cleanElems]
      rw [hE]
      intro x hx
      simp [allKeysElems, List.mem_append, cleanElems_subkeys rest hx]
  | .boolv b :: rest => by
      have hE : cleanElems (JVal.boolv b :: rest)
          = JVal.boolv b :: cleanElems rest := by simp [cleanElems]
      rw [hE]
      intro x hx
      simp only [allKeysElems] at hx
      rcases List.mem_append.1 hx with h1 | h1
      · simp [allKeysElems, List.mem_append, h1]
      · simp [allKeysElems, List.mem_append, cleanElems_subkeys rest h1]
  | .num q :: rest => by
      have hE : cleanElems (JVal.num q :: rest)
          = JVal.num q :: cleanElems rest := by simp [cleanElems]
      rw [hE]
      intro x hx
      simp only [allKeysElems] at hx
      rcases List.mem_append.1 hx with h1 | h1
      · simp [allKeysElems, List.mem_append, h1]
      · simp [allKeysElems, List.mem_append, cleanElems_subkeys rest h1]
  | .str s :: rest => by
      have hE : cleanElems (JVal.str s :: rest)
          = JVal.str s :: cleanElems rest := by simp [cleanElems]
      rw [hE]
      intro x hx
      simp only [allKeysElems] at hx
      rcases List.mem_append.1 hx with h1 | h1
      · simp [allKeysElems, List.mem_append, h1]
      · simp [allKeysElems, List.mem_append, cleanElems_subkeys rest h1]
  | .arr ys :: rest => by
      have hE : cleanElems (JVal.arr ys :: rest)
          = JVal.arr ys :: cleanElems rest := by simp [cleanElems]
      rw [hE]
      intro x hx
      simp only [allKeysElems] at hx
      rcases List.mem_append.1 hx with h1 | h1
      · simp [allKeysElems, List.mem_append, h1]
      · simp [allKeysElems, List.mem_append, cleanElems_subkeys rest h1]
  | .obj fs :: rest => by
      by_cases hc : (cleanFields fs).isEmpty = true
      · have hE : cleanElems (JVal.obj fs :: rest) = cleanElems rest := by
          simp [cleanElems, hc]
        rw [hE]
        intro x hx
        simp [allKeysElems, List.mem_append, cleanElems_subkeys rest hx]
      · have hE : cleanElems (JVal.obj fs :: rest)
            = JVal.obj (cleanFields fs) :: cleanElems rest := by
          simp [cleanElems, hc]
        rw [hE]
        intro x hx
        simp only [allKeysElems] at hx
        rcases List.mem_append.1 hx with h1 | h1
        · simp only [allKeysV] at h1
          simp [allKeysElems, allKeysV, List.mem_append,
            cleanFields_subkeys fs h1]
        · simp [allKeysElems, List.mem_append, cleanElems_subkeys rest h1]

end

theorem structMapFields_bound {sec : JVal} :
    ∀ {names : List String} {fields : List (String × JVal)},
      names.mapM (fun fn => do
          let v ← pyGet sec fn .null
          pure (fn, v)) = .ok fields →
      ∀ q ∈ fields, q.1 ∈ names ∧ allKeysV q.2 ⊆ allKeysV sec := by
  intro names
  induction names with
  | nil =>
      intro fields h
      cases h
      simp
  | cons a rest ih =>
      intro fields h
      rw [List.mapM_cons] at h
      cases hg : pyGet sec a .null with
      | error e => rw [hg] at h; exact absurd h (by simp)
      | ok v =>
          rw [hg] at h
          simp only [ok_bindE, pure_bindE] at h
          cases ht : rest.mapM (fun fn => do
              let v ← pyGet sec fn .null
              pure (fn, v)) with
          | error e => rw [ht] at h; exact absurd h (by simp)
          | ok tail =>
              rw [ht] at h
              simp only [ok_bindE, pure_bindE] at h
              injection h with h2
              subst h2
              intro q hq
              rcases List.mem_cons.1 hq with h1 | h1
              · subst h1
                refine ⟨by simp, ?_⟩
                intro x hx
                have := pyGet_subkeys hg hx
                simpa [allKeysV] using this
              · rcases ih ht q h1 with ⟨ha, hb⟩
                exact ⟨List.mem_cons_of_mem _ ha, hb⟩

theorem buildStructureMap_bound {secs : List JVal}
    {smap : List (String × List (String × JVal))} {B : List String}
    (hsecs : ∀ sec ∈ secs, allKeysV sec ⊆ B)
    (h : buildStructureMap secs = .ok smap) :
    ∀ p ∈ smap, ∀ q ∈ p.2, q.1 ∈ structFieldNames ∧ allKeysV q.2 ⊆ B := by
  rw [buildStructureMap] at h
  refine foldlM_except_inv
    (fun acc => ∀ p ∈ acc, ∀ q ∈ p.2,
      q.1 ∈ structFieldNames ∧ allKeysV q.2 ⊆ B)
    secs [] (by simp) ?_ smap h
  intro b a b2 hmem hP hstep
  cases hc : pyContains a "group" with
  | error e => rw [hc] at hstep; exact absurd hstep (by simp)
  | ok c =>
      rw [hc, ok_bindE] at hstep
      by_cases hcc : c = true
      · subst hcc
        rw [if_pos rfl] at hstep
        cases hx : pyIndex a "group" with
        | error e => rw [hx] at hstep; exact absurd hstep (by simp)
        | ok gv =>
            rw [hx, ok_bindE] at hstep
            cases hl : pyLower gv with
            | error e => rw [hl] at hstep; exact absurd hstep (by simp)
            | ok gs =>
                rw [hl, ok_bindE] at hstep
                cases hm : structFieldNames.mapM (fun fn => do
                    let v ← pyGet a fn .null
                    pure (fn, v)) with
                | error e => rw [hm] at hstep; exact absurd hstep (by simp)
                | ok fields =>
                    rw [hm, ok_bindE] at hstep
                    injection hstep with h2
                    subst h2
                    intro p hp
                    rcases mem_dictSet hp with h1 | h1
                    · exact hP p h1
                    · subst h1
                      intro q hq
                      rcases structMapFields_bound hm q hq with ⟨ha, hb⟩
                      exact ⟨ha, fun x hx => hsecs a hmem (hb hx)⟩
      · rw [if_neg hcc] at hstep
        injection hstep with h2
        subst h2
        exact hP

theorem mem_allKeysFields : ∀ {fs : List (String × JVal)} {x : String},
    x ∈ allKeysFields fs → ∃ q ∈ fs, x = q.1 ∨ x ∈ allKeysV q.2 := by
  intro fs
  induction fs with
  | nil => intro x hx; exact absurd hx (by simp [allKeysFields])
  | cons p rest ih =>
      obtain ⟨k1, v1⟩ := p
      intro x hx
      simp only [allKeysFields] at hx
      rcases List.mem_cons.1 hx with h1 | h1
      · exact ⟨(k1, v1), by simp, Or.inl h1⟩
      · rcases List.mem_append.1 h1 with h2 | h2
        · exact ⟨(k1, v1), by simp, Or.inr h2⟩
        · rcases ih h2 with ⟨q, hq, hd⟩
          exact ⟨q, List.mem_cons_of_mem _ hq, hd⟩

theorem structApply_subkeys {smap : List (String × List (String × JVal))}
    {B : List String} {k : String} (fs : List (String × JVal))
    (hsmap : ∀ p ∈ smap, ∀ q ∈ p.2,
      q.1 ∈ structFieldNames ∧ allKeysV q.2 ⊆ B) :
    allKeysV (structApply smap k (.obj fs)) ⊆
      ("structure" :: structFieldNames) ++ B ++ allKeysFields fs := by
  cases hm : findA k smap with
  | none =>
      rw [structApply_nomatch _ hm]
      intro x hx
      simp only [allKeysV] at hx
      simp [List.mem_append, hx]
  | some fields =>
      by_cases hemp : ((fields.filter (fun q => !isNullJ q.2)).isEmpty) = true
      · rw [structApply_empty _ hm hemp]
        intro x hx
        simp only [allKeysV] at hx
        simp [List.mem_append, hx]
      · rw [structApply_attach _ hm hemp]
        intro x hx
        simp only [allKeysV] at hx
        have h1 := allKeysFields_dictSet fs "structure"
          (.obj (fields.filter (fun q => !isNullJ q.2))) hx
        rcases List.mem_cons.1 h1 with h2 | h2
        · simp [h2]
        · rcases List.mem_append.1 h2 with h3 | h3
          · simp only [allKeysV] at h3
            have h4 := allKeysFields_filter _ fields h3
            rcases mem_allKeysFields h4 with ⟨q, hq, hd⟩
            have h5 := hsmap (k, fields) (findA_some_mem hm) q hq
            rcases hd with h6 | h6
            · subst h6
              simp [List.mem_append, h5.1]
            · simp [List.mem_append, h5.2 h6]
          · simp [List.mem_append, h3]

theorem allKeysFields_map_transform {t : String → JVal → JVal}
    {C : List String} :
    ∀ {l : List (String × JVal)},
      (∀ p ∈ l, allKeysV (t p.1 p.2) ⊆ C ++ allKeysV p.2) →
      allKeysFields (l.map (fun p => (p.1, t p.1 p.2))) ⊆
        C ++ allKeysFields l := by
  intro l
  induction l with
  | nil => intro _; simp [allKeysFields]
  | cons q rest ih =>
      obtain ⟨k1, v1⟩ := q
      intro hall x hx
      simp only [List.map_cons, allKeysFields] at hx
      rcases List.mem_cons.1 hx with h1 | h1
      · simp [allKeysFields, List.mem_append, h1]
      · rcases List.mem_append.1 h1 with h2 | h2
        · have h3 := hall (k1, v1) (by simp) h2
          rcases List.mem_append.1 h3 with h4 | h4
          · simp [List.mem_append, h4]
          · simp [allKeysFields, List.mem_append, h4]
        · have h3 := ih (fun p hp => hall p (List.mem_cons_of_mem _ hp)) h2
          rcases List.mem_append.1 h3 with h4 | h4
          · simp [List.mem_append, h4]
          · simp [allKeysFields, List.mem_append, h4]

theorem extract_guitar_subkeys {g : JVal} {ins : List (String × JVal)}
    (h : extract_guitar_instruments g = .ok ins) :
    allKeysFields ins ⊆
      emittedFixedKeys ++ (allKeysV g).map normalizeKey ++ allKeysV g := by
  rw [extract_guitar_instruments] at h
  cases hc : pyContains g "guitar_types" with
  | error e => rw [hc] at h; exact absurd h (by simp)
  | ok has =>
  rw [hc, ok_bindE] at h
  by_cases hb : (!has) = true
  · rw [if_pos hb] at h
    injection h with h2
    subst h2
    simp [allKeysFields]
  · rw [if_neg hb] at h
    cases hx : pyIndex g "guitar_types" with
    | error e => rw [hx] at h; exact absurd h (by simp)
    | ok gt =>
    rw [hx, ok_bindE] at h
    cases hi : pyItems gt with
    | error e => rw [hi] at h; exact absurd h (by simp)
    | ok typeItems =>
    rw [hi, ok_bindE] at h
    have htype : ∀ a ∈ typeItems, allKeysV a.2 ⊆ allKeysV g := by
      intro a ha
      obtain ⟨k1, v1⟩ := a
      have h1 : allKeysV v1 ⊆ allKeysFields typeItems := (allKeys_of_mem ha).2
      have h2 : allKeysFields typeItems ⊆ allKeysV gt := by
        rw [pyItems_inv hi]
        intro z hz
        simpa [allKeysV] using hz
      exact fun y hy => pyIndex_subkeys hx (h2 (h1 hy))
    refine foldlM_except_inv
      (fun acc => allKeysFields acc ⊆
        emittedFixedKeys ++ (allKeysV g).map normalizeKey ++ allKeysV g)
      typeItems [] (by simp [allKeysFields]) ?_ ins h
    intro b a b2 hmem hP hstep
    cases hcg : pyContains a.2 "groups" with
    | error e => rw [hcg] at hstep; exact absurd hstep (by simp)
    | ok hasG =>
    rw [hcg, ok_bindE] at hstep
    by_cases hbg : (!hasG) = true
    · rw [if_pos hbg] at hstep
      injection hstep with h3
      subst h3
      exact hP
    · rw [if_neg hbg] at hstep
      cases hgr : pyIndex a.2 "groups" with
      | error e => rw [hgr] at hstep; exact absurd hstep (by simp)
      | ok groups =>
      rw [hgr, ok_bindE] at hstep
      cases hrec : pyItems groups with
      | error e => rw [hrec] at hstep; exact absurd hstep (by simp)
      | ok recs =>
      rw [hrec, ok_bindE] at hstep
      have hrecAll : ∀ r ∈ recs,
          r.1 ∈ allKeysV g ∧ allKeysV r.2 ⊆ allKeysV g := by
        intro r hr
        have h1 : allKeysFields recs ⊆ allKeysV g := by
          intro z hz
          have h2 : allKeysFields recs ⊆ allKeysV groups := by
            rw [pyItems_inv hrec]
            intro w hw
            simpa [allKeysV] using hw
          exact htype a hmem (pyIndex_subkeys hgr (h2 hz))
        obtain ⟨k1, v1⟩ := r
        exact ⟨h1 (allKeys_of_mem hr).1, fun z hz => h1 ((allKeys_of_mem hr).2 hz)⟩
      refine foldlM_except_inv
        (fun acc => allKeysFields acc ⊆
          emittedFixedKeys ++ (allKeysV g).map normalizeKey ++ allKeysV g)
        recs b hP ?_ b2 hstep
      intro b3 r b4 hmem2 hP2 hstep2
      cases hbc : buildInstrumentConfig r.2 with
      | error e => rw [hbc] at hstep2; exact absurd hstep2 (by simp)
      | ok cfg =>
      rw [hbc, ok_bindE] at hstep2
      by_cases hce : cfg.isEmpty = true
      · rw [if_pos hce] at hstep2
        injection hstep2 with h4
        subst h4
        exact hP2
      · rw [if_neg hce] at hstep2
        injection hstep2 with h4
        subst h4
        intro x hxx
        have h5 := allKeysFields_dictSet b3 (normalizeKey r.1) (.obj cfg) hxx
        rcases List.mem_append.1 h5 with h6 | h6
        · rcases List.mem_cons.1 h6 with h7 | h7
          · subst h7
            have hr1 := (hrecAll r hmem2).1
            simp only [List.mem_append, List.mem_map]
            exact Or.inl (Or.inr ⟨r.1, hr1, rfl⟩)
          · simp only [allKeysV] at h7
            have h8 := buildInstrumentConfig_subkeys hbc h7
            rcases List.mem_append.1 h8 with h9 | h9
            · simp [List.mem_append, h9]
            · have h10 := (hrecAll r hmem2).2 h9
              simp [List.mem_append, h10]
        · exact hP2 h6

theorem extract_group_subkeys {g : JVal} {grps : List (String × JVal)}
    (h : extract_group_effects g = .ok grps) :
    allKeysFields grps ⊆
      emittedFixedKeys ++ (allKeysV g).map normalizeKey ++ allKeysV g := by
  rw [extract_group_effects] at h
  cases hc : pyContains g "groups" with
  | error e => rw [hc] at h; exact absurd h (by simp)
  | ok has =>
  rw [hc, ok_bindE] at h
  by_cases hb : (!has) = true
  · rw [if_pos hb] at h
    injection h with h2
    subst h2
    simp [allKeysFields]
  · rw [if_neg hb] at h
    cases hx : pyIndex g "groups" with
    | error e => rw [hx] at h; exact absurd h (by simp)
    | ok groups =>
    rw [hx, ok_bindE] at h
    cases hi : pyItems groups with
    | error e => rw [hi] at h; exact absurd h (by simp)
    | ok recs =>
    rw [hi, ok_bindE] at h
    have hrecAll : ∀ r ∈ recs,
        r.1 ∈ allKeysV g ∧ allKeysV r.2 ⊆ allKeysV g := by
      intro r hr
      have h1 : allKeysFields recs ⊆ allKeysV g := by
        intro z hz
        have h2 : allKeysFields recs ⊆ allKeysV groups := by
          rw [pyItems_inv hi]
          intro w hw
          simpa [allKeysV] using hw
        exact pyIndex_subkeys hx (h2 hz)
      obtain ⟨k1, v1⟩ := r
      exact ⟨h1 (allKeys_of_mem hr).1, fun z hz => h1 ((allKeys_of_mem hr).2 hz)⟩
    refine foldlM_except_inv
      (fun acc => allKeysFields acc ⊆
        emittedFixedKeys ++ (allKeysV g).map normalizeKey ++ allKeysV g)
      recs [] (by simp [allKeysFields]) ?_ grps h
    intro b3 r b4 hmem2 hP2 hstep2
    cases hbc : buildGroupConfig r.2 with
    | error e => rw [hbc] at hstep2; exact absurd hstep2 (by simp)
    | ok cfg =>
    rw [hbc, ok_bindE] at hstep2
    by_cases hce : cfg.isEmpty = true
    · rw [if_pos hce] at hstep2
      injection hstep2 with h4
      subst h4
      exact hP2
    · rw [if_neg hce] at hstep2
      injection hstep2 with h4
      subst h4
      intro x hxx
      have h5 := allKeysFields_dictSet b3 (normalizeKey r.1) (.obj cfg) hxx
      rcases List.mem_append.1 h5 with h6 | h6
      · rcases List.mem_cons.1 h6 with h7 | h7
        · subst h7
          have hr1 := (hrecAll r hmem2).1
          simp only [List.mem_append, List.mem_map]
          exact Or.inl (Or.inr ⟨r.1, hr1, rfl⟩)
        · simp only [allKeysV] at h7
          have h8 := buildGroupConfig_subkeys hbc h7
          rcases List.mem_append.1 h8 with h9 | h9
          · simp [List.mem_append, h9]
          · have h10 := (hrecAll r hmem2).2 h9
            simp [List.mem_append, h10]
      · exact hP2 h6

theorem runOutput_subkeys {guitar group moods synth structd : JVal}
    {prefs : List String} {out : List (String × JVal)}
    (h : runOutput guitar group moods synth structd prefs = .ok out) :
    allKeysFields out ⊆
      ("structure" :: structFieldNames) ++ emittedFixedKeys ++
        (allKeysV guitar ++ allKeysV group).map normalizeKey ++
        (allKeysV guitar ++ allKeysV group ++ allKeysV structd) := by
  obtain ⟨r, hgen, hrc⟩ := runOutput_config h
  obtain ⟨ins, grps, cfg1, h1, h2, h3, hcfg⟩ := run_inv hgen
  have hout : out = cleanFields cfg1 := by rw [← hrc, hcfg]
  have hins := extract_guitar_subkeys h1
  have hgrp := extract_group_subkeys h2
  have hcfg0 : allKeysFields (dictUpdate (dictUpdate [] ins) grps) ⊆
      allKeysFields ins ++ allKeysFields grps := by
    intro x hx
    have h4 := allKeysFields_dictUpdate grps (dictUpdate [] ins) hx
    rcases List.mem_append.1 h4 with h5 | h5
    · have h6 := allKeysFields_dictUpdate ins [] h5
      rcases List.mem_append.1 h6 with h7 | h7
      · exact absurd h7 (by simp [allKeysFields])
      · exact List.mem_append_left _ h7
    · exact List.mem_append_right _ h5
  have hsrcBound : allKeysFields (dictUpdate (dictUpdate [] ins) grps) ⊆
      emittedFixedKeys ++
        (allKeysV guitar ++ allKeysV group).map normalizeKey ++
        (allKeysV guitar ++ allKeysV group ++ allKeysV structd) := by
    intro x hx
    rcases List.mem_append.1 (hcfg0 hx) with h5 | h5
    · rcases List.mem_append.1 (hins h5) with h6 | h6
      · rcases List.mem_append.1 h6 with h7 | h7
        · simp [List.mem_append, h7]
        · rcases List.mem_map.1 h7 with ⟨k0, hk0, hke⟩
          simp only [List.mem_append, List.mem_map]
          exact Or.inl (Or.inr ⟨k0, Or.inl hk0, hke⟩)
      · simp [List.mem_append, h6]
    · rcases List.mem_append.1 (hgrp h5) with h6 | h6
      · rcases List.mem_append.1 h6 with h7 | h7
        · simp [List.mem_append, h7]
        · rcases List.mem_map.1 h7 with ⟨k0, hk0, hke⟩
          simp only [List.mem_append, List.mem_map]
          exact Or.inl (Or.inr ⟨k0, Or.inr hk0, hke⟩)
      · simp [List.mem_append, h6]
  have hmerge := merged_inv (extract_guitar_inv h1) (extract_group_inv h2)
  have hobj : ∀ p ∈ dictUpdate (dictUpdate [] ins) grps,
      ∃ fs, p.2 = JVal.obj fs := by
    intro p hp
    obtain ⟨fs, hfs, _⟩ := hmerge.1 p hp
    exact ⟨fs, hfs⟩
  have hclean : allKeysFields out ⊆ allKeysFields cfg1 := by
    rw [hout]
    exact cleanFields_subkeys cfg1
  rcases apply_structure_inv hobj h3 with ⟨hno, hceq⟩ |
      ⟨secs, smap, hhas, hsecs, hsm, hceq⟩
  · intro x hx
    have h4 := hsrcBound (by rw [← hceq]; exact hclean hx)
    simp only [List.mem_append, List.mem_map, List.map_append,
      List.mem_cons, or_assoc] at h4 ⊢
    exact Or.inr (Or.inr h4)
  · have hsecsB : ∀ sec ∈ secs, allKeysV sec ⊆ allKeysV structd := by
      intro sec hsec
      cases hpi : pyIndex structd "sections" with
      | error e =>
          rw [hpi] at hsecs
          exact Except.noConfusion hsecs
      | ok sv =>
          rw [hpi] at hsecs
          have hsv : pyIter sv = Except.ok secs := hsecs
          exact fun y hy => pyIndex_subkeys hpi (pyIter_subkeys hsv sec hsec hy)
    have hsmapB := buildStructureMap_bound hsecsB hsm
    have hone : ∀ p ∈ dictUpdate (dictUpdate [] ins) grps,
        allKeysV (structApply smap p.1 p.2) ⊆
          (("structure" :: structFieldNames) ++ allKeysV structd)
            ++ allKeysV p.2 := by
      intro p hp
      obtain ⟨fs, hfs⟩ := hobj p hp
      rw [hfs]
      have h4 := @structApply_subkeys smap (allKeysV structd) p.1 fs hsmapB
      intro y hy
      have h5 := h4 hy
      simp only [allKeysV]
      exact h5
    have htrans := allKeysFields_map_transform hone
    intro x hx
    have h4 : x ∈ allKeysFields cfg1 := hclean hx
    rw [hceq] at h4
    have h5 := htrans h4
    rcases List.mem_append.1 h5 with h6 | h6
    · simp only [List.mem_append, List.mem_cons, or_assoc] at h6 ⊢
      tauto
    · have h7 := hsrcBound h6
      simp only [List.mem_append, List.mem_map, List.map_append,
        List.mem_cons, or_assoc] at h7 ⊢
      exact Or.inr (Or.inr h7)

/-- C6 amended (corrected claim): for every run whose guitar, group and
structure source documents carry no key that is forbidden or becomes
forbidden after key normalization, no key anywhere in the emitted
configuration tree, at any nesting depth, case-insensitively equals a member
of the forbidden set layer, layering, score, ai_score, internal_layer,
internal_score, stage. The unamended claim is refuted by c6_counterexample:
keys of mapping elements inside source fx lists are copied verbatim into
the output, so a source can leak a forbidden key into the emitted tree. -/
theorem c6_no_internal_metadata {guitar group moods synth structd : JVal}
    {prefs : List String} {out : List (String × JVal)}
    (hrun : runOutput guitar group moods synth structd prefs = .ok out)
    (hsrc : sourcesKeyOK guitar group structd = true) :
    noForbidden out = true := by
  unfold noForbidden
  rw [List.all_eq_true]
  intro k hk
  have hbig := runOutput_subkeys hrun hk
  have hfixed : ∀ x ∈ ("structure" :: structFieldNames) ++ emittedFixedKeys,
      keyForbidden x = false := by decide
  unfold sourcesKeyOK at hsrc
  rw [List.all_eq_true] at hsrc
  rcases List.mem_append.1 hbig with h1 | h1
  · rcases List.mem_append.1 h1 with h2 | h2
    · simp [hfixed k h2]
    · rcases List.mem_map.1 h2 with ⟨k0, hk0, hke⟩
      have hk0m : k0 ∈ allKeysV guitar ++ allKeysV group ++ allKeysV structd :=
        List.mem_append_left _ hk0
      have h3 := hsrc k0 hk0m
      rw [Bool.and_eq_true] at h3
      rw [← hke]
      simpa using h3.2
  · have h3 := hsrc k h1
    rw [Bool.and_eq_true] at h3
    simpa using h3.1

/-- Witness for the amended C6 at the Intro Pad scenario: the sources carry
no forbidden key, and the emitted configuration carries none either. -/
theorem c6_no_internal_metadata_witness :
    runOutput emptyDoc groupDocIP emptyDoc emptyDoc structDocIP [] = .ok outIP
      ∧ sourcesKeyOK emptyDoc groupDocIP structDocIP = true
      ∧ noForbidden outIP = true :=
  ⟨rfl, rfl, @c6_no_internal_metadata emptyDoc groupDocIP emptyDoc emptyDoc
    structDocIP [] outIP rfl rfl⟩

/-- Witness for C10 at guitarC10, whose record gates attack noise with the
number 1: the output entry keeps only the allowed intensity key, and the
gate accepted the non-boolean truthy value. -/
theorem c10_attack_noise_allowlist_witness :
    runOutput guitarC10 emptyDoc emptyDoc emptyDoc emptyDoc [] = .ok outC10
      ∧ attackNoiseOK outC10 = true
      ∧ attackNoiseSection recordC10 = .ok (some [("intensity", .num (1/2))])
      ∧ pyIndex recordC10 "attack_noise" = .ok (.obj [("enabled", .num 1),
          ("intensity", .num (1/2)), ("extra", .str "zz")])
      ∧ pyGet (.obj [("enabled", .num 1), ("intensity", .num (1/2)),
          ("extra", .str "zz")]) "enabled" .null = .ok (.num 1)
      ∧ (pyTruthy (.num 1) = true
          ∧ ([("intensity", JVal.num (1/2))]).all
              (fun q => attackNoiseAllowed.contains q.1) = true) := by
  refine ⟨rfl, ?_, rfl, rfl, rfl, ?_⟩
  · exact (c10_attack_noise_allowlist guitarC10 emptyDoc emptyDoc emptyDoc
      emptyDoc [] outC10 rfl).1
  · exact (c10_attack_noise_allowlist guitarC10 emptyDoc emptyDoc emptyDoc
      emptyDoc [] outC10 rfl).2 recordC10 [("intensity", .num (1/2))]
      (.obj [("enabled", .num 1), ("intensity", .num (1/2)),
        ("extra", .str "zz")]) (.num 1) rfl rfl rfl

end JsonReader
